import Mathlib

set_option autoImplicit false
set_option maxHeartbeats 1000000

/-!
Verification model of the oidebrett/crawler ingestion pipeline.

The definitions below are shallow embeddings of the Python functions in
src/code/crawler.py and src/code/app.py: pure Lean functions over explicit
state values.  Filesystem contents are modelled as association lists from
site names to parsed file contents, JSON values as an inductive type
mirroring what json.loads produces, and timestamps as rationals (for the
rate-limit timing) or opaque strings (for record timestamps).  Functions
that can raise an uncaught Python exception return an Option, with none
standing for the exception.
-/

namespace CrawlerModel

/-- JSON values as produced by Python json.loads: null, booleans, numbers
(modelled as integers; no claim depends on float payloads), strings,
arrays, and objects. Objects are insertion-ordered key/value lists with
distinct keys, as Python dicts are. -/
inductive Json where
  | null : Json
  | bool : Bool → Json
  | num : Int → Json
  | str : String → Json
  | arr : List Json → Json
  | obj : List (String × Json) → Json

mutual

/-- Structural equality test on JSON values (Python ==). -/
def Json.beq : Json → Json → Bool
  | .null, .null => true
  | .bool a, .bool c => a == c
  | .num a, .num c => a == c
  | .str a, .str c => a == c
  | .arr xs, .arr ys => Json.beqList xs ys
  | .obj xs, .obj ys => Json.beqKvs xs ys
  | _, _ => false

/-- Equality test on lists of JSON values. -/
def Json.beqList : List Json → List Json → Bool
  | [], [] => true
  | x :: xs, y :: ys => Json.beq x y && Json.beqList xs ys
  | _, _ => false

/-- Equality test on JSON object entry lists. -/
def Json.beqKvs : List (String × Json) → List (String × Json) → Bool
  | [], [] => true
  | (k, v) :: xs, (l, w) :: ys => k == l && Json.beq v w && Json.beqKvs xs ys
  | _, _ => false

end

mutual

def Json.eq_of_beq : ∀ a b : Json, Json.beq a b = true → a = b
  | .null, .null, _ => rfl
  | .null, .bool _, h => by simp [Json.beq] at h
  | .null, .num _, h => by simp [Json.beq] at h
  | .null, .str _, h => by simp [Json.beq] at h
  | .null, .arr _, h => by simp [Json.beq] at h
  | .null, .obj _, h => by simp [Json.beq] at h
  | .bool _, .null, h => by simp [Json.beq] at h
  | .bool a, .bool c, h => by
      simp only [Json.beq, beq_iff_eq] at h; rw [h]
  | .bool _, .num _, h => by simp [Json.beq] at h
  | .bool _, .str _, h => by simp [Json.beq] at h
  | .bool _, .arr _, h => by simp [Json.beq] at h
  | .bool _, .obj _, h => by simp [Json.beq] at h
  | .num _, .null, h => by simp [Json.beq] at h
  | .num _, .bool _, h => by simp [Json.beq] at h
  | .num a, .num c, h => by
      simp only [Json.beq, beq_iff_eq] at h; rw [h]
  | .num _, .str _, h => by simp [Json.beq] at h
  | .num _, .arr _, h => by simp [Json.beq] at h
  | .num _, .obj _, h => by simp [Json.beq] at h
  | .str _, .null, h => by simp [Json.beq] at h
  | .str _, .bool _, h => by simp [Json.beq] at h
  | .str _, .num _, h => by simp [Json.beq] at h
  | .str a, .str c, h => by
      simp only [Json.beq, beq_iff_eq] at h; rw [h]
  | .str _, .arr _, h => by simp [Json.beq] at h
  | .str _, .obj _, h => by simp [Json.beq] at h
  | .arr _, .null, h => by simp [Json.beq] at h
  | .arr _, .bool _, h => by simp [Json.beq] at h
  | .arr _, .num _, h => by simp [Json.beq] at h
  | .arr _, .str _, h => by simp [Json.beq] at h
  | .arr xs, .arr ys, h => by
      rw [Json.eqList_of_beq xs ys (by simpa [Json.beq] using h)]
  | .arr _, .obj _, h => by simp [Json.beq] at h
  | .obj _, .null, h => by simp [Json.beq] at h
  | .obj _, .bool _, h => by simp [Json.beq] at h
  | .obj _, .num _, h => by simp [Json.beq] at h
  | .obj _, .str _, h => by simp [Json.beq] at h
  | .obj _, .arr _, h => by simp [Json.beq] at h
  | .obj xs, .obj ys, h => by
      rw [Json.eqKvs_of_beq xs ys (by simpa [Json.beq] using h)]

def Json.eqList_of_beq : ∀ xs ys : List Json, Json.beqList xs ys = true → xs = ys
  | [], [], _ => rfl
  | [], _ :: _, h => by simp [Json.beqList] at h
  | _ :: _, [], h => by simp [Json.beqList] at h
  | x :: xs, y :: ys, h => by
      simp only [Json.beqList, Bool.and_eq_true] at h
      rw [Json.eq_of_beq x y h.1, Json.eqList_of_beq xs ys h.2]

def Json.eqKvs_of_beq : ∀ xs ys : List (String × Json),
    Json.beqKvs xs ys = true → xs = ys
  | [], [], _ => rfl
  | [], _ :: _, h => by simp [Json.beqKvs] at h
  | _ :: _, [], h => by simp [Json.beqKvs] at h
  | (k, v) :: xs, (l, w) :: ys, h => by
      simp only [Json.beqKvs, Bool.and_eq_true, beq_iff_eq] at h
      rw [h.1.1, Json.eq_of_beq v w h.1.2, Json.eqKvs_of_beq xs ys h.2]

end

mutual

def Json.beq_refl : ∀ a : Json, Json.beq a a = true
  | .null => rfl
  | .bool a => by simp [Json.beq]
  | .num a => by simp [Json.beq]
  | .str a => by simp [Json.beq]
  | .arr xs => by simpa [Json.beq] using Json.beqList_refl xs
  | .obj kvs => by simpa [Json.beq] using Json.beqKvs_refl kvs

def Json.beqList_refl : ∀ xs : List Json, Json.beqList xs xs = true
  | [] => rfl
  | x :: xs => by
      simp only [Json.beqList, Bool.and_eq_true]
      exact ⟨Json.beq_refl x, Json.beqList_refl xs⟩

def Json.beqKvs_refl : ∀ xs : List (String × Json), Json.beqKvs xs xs = true
  | [] => rfl
  | (k, v) :: xs => by
      simp only [Json.beqKvs, Bool.and_eq_true]
      exact ⟨⟨by simp, Json.beq_refl v⟩, Json.beqKvs_refl xs⟩

end

instance : DecidableEq Json := fun a b =>
  if h : Json.beq a b = true then isTrue (Json.eq_of_beq a b h)
  else isFalse (fun he => h (he ▸ Json.beq_refl a))

/-- Python d.get(k) on a dict value; none for a missing key. Called only
on dict values in the source (non-dicts would raise AttributeError, which
is modelled at the call sites that can reach it). -/
def Json.getField : Json → String → Option Json
  | .obj kvs, k => kvs.lookup k
  | _, _ => none

/-- Python truthiness of a JSON-decoded value. -/
def Json.truthy : Json → Bool
  | .null => false
  | .bool b => b
  | .num n => n != 0
  | .str s => s != ""
  | .arr xs => !xs.isEmpty
  | .obj kvs => !kvs.isEmpty

/-- Whether a JSON value is a dict. -/
def Json.isObj : Json → Bool
  | .obj _ => true
  | _ => false

/-- Python dict assignment d[k] = v on an association list: an existing
key is overwritten in place, a new key is appended (insertion order). -/
def assocSet {α : Type} (m : List (String × α)) (k : String) (v : α) :
    List (String × α) :=
  if (m.lookup k).isSome then m.map (fun p => if p.1 = k then (k, v) else p)
  else m ++ [(k, v)]

/-- crawler.get_site_status: the argument is the parsed contents of
data/status/<site>.json, or none when the file does not exist. A file
lacking the sitemap_processed key gets it filled in as true; a missing
file yields the hard-coded default dict. -/
def get_site_status (file : Option (List (String × Json))) :
    List (String × Json) :=
  match file with
  | some status =>
      if (status.lookup "sitemap_processed").isSome then status
      else status ++ [("sitemap_processed", Json.bool true)]
  | none =>
      [("paused", Json.bool false), ("total_urls", Json.num 0),
       ("crawled_urls", Json.num 0), ("sitemap_processed", Json.bool true)]

/-- The paused test status.get('paused', False) as used by fetch_url and
get_next_url callers. -/
def statusPaused (status : List (String × Json)) : Bool :=
  ((status.lookup "paused").getD (Json.bool false)).truthy

/-- The sitemap_processed test status.get('sitemap_processed', False). -/
def statusSitemapDone (status : List (String × Json)) : Bool :=
  ((status.lookup "sitemap_processed").getD (Json.bool false)).truthy

/-- crawler.extract_json_key: the JSON-LD identifier of an object, its
at-id value if the key is present, else its url value; None for values
without one (including non-dicts). -/
def extract_json_key (j : Json) : Option Json :=
  match j with
  | .obj kvs =>
      match kvs.lookup "@id" with
      | some v => some v
      | none => kvs.lookup "url"
  | _ => none

/-- The truthy identifier of an emitted item, if any: the source guards
every dedup decision by `if key and ...`, so falsy keys (None, empty
string, 0, empty containers) count as no key. -/
def keyOf (j : Json) : Option Json :=
  match extract_json_key j with
  | some k => if k.truthy then some k else none
  | none => none

/-- Python dict.update(src) on association lists: keys of src already in
base are overwritten in place, fresh keys are appended in order. -/
def dictUpdate (base : List (String × Json)) : List (String × Json) →
    List (String × Json)
  | [] => base
  | (k, v) :: rest => dictUpdate (assocSet base k v) rest

/-- The per-item loop of the array branch of extract_schema_org: an item
with a truthy identifier is included and its key recorded only when the
key is not yet in the seen set; items without a truthy identifier are
always included. Returns (new_objects, updated seen set). -/
def arrayNewObjects (seen : List Json) : List Json → List Json × List Json
  | [] => ([], seen)
  | item :: rest =>
      match extract_json_key item with
      | some k =>
          if k.truthy then
            if k ∈ seen then arrayNewObjects seen rest
            else
              let r := arrayNewObjects (k :: seen) rest
              (item :: r.1, r.2)
          else
            let r := arrayNewObjects seen rest
            (item :: r.1, r.2)
      | none =>
          let r := arrayNewObjects seen rest
          (item :: r.1, r.2)

/-- The per-entry loop of the at-graph branch: graph entries with an
unseen truthy key, or with no truthy key, are emitted (flattened later);
entries whose key was already seen are skipped. A non-dict entry makes
flattened.update raise, modelled as none. Returns the emitted entries
(as dict field lists) and the updated seen set. -/
def graphNewItems (seen : List Json) : List Json →
    Option (List (List (String × Json)) × List Json)
  | [] => some ([], seen)
  | item :: rest =>
      match item with
      | .obj kvs =>
          match extract_json_key (Json.obj kvs) with
          | some k =>
              if k.truthy then
                if k ∈ seen then graphNewItems seen rest
                else
                  match graphNewItems (k :: seen) rest with
                  | some r => some (kvs :: r.1, r.2)
                  | none => none
              else
                match graphNewItems seen rest with
                | some r => some (kvs :: r.1, r.2)
                | none => none
          | none =>
              match graphNewItems seen rest with
              | some r => some (kvs :: r.1, r.2)
              | none => none
      | _ => none

/-- The flattened record built for single array items and graph entries:
a url/timestamp base dict updated with the item's own fields (which may
overwrite url and timestamp). -/
def flattenRec (url ts : String) (kvs : List (String × Json)) : Json :=
  Json.obj (dictUpdate [("url", Json.str url), ("timestamp", Json.str ts)] kvs)

/-- One increment of a counter dict keyed by a JSON value. -/
def bumpCount (counts : List (Json × Nat)) (t : Json) : List (Json × Nat) :=
  if (counts.lookup t).isSome then
    counts.map (fun p => if p.1 = t then (p.1, p.2 + 1) else p)
  else counts ++ [(t, 1)]

/-- crawler.update_json_type_count: a list-valued at-type counts each
element, any other value counts once. -/
def update_json_type_count (counts : List (Json × Nat)) (t : Json) :
    List (Json × Nat) :=
  match t with
  | .arr ts => ts.foldl bumpCount counts
  | _ => bumpCount counts t

/-- The `if at-type in obj: update_json_type_count(...)` idiom. The model
reads the key off dict values only; the source applies `in` to whatever
the element is, which for the non-dict elements reachable here either
tests substrings or raises, a corner no claim touches. -/
def countTypeOf (counts : List (Json × Nat)) (j : Json) : List (Json × Nat) :=
  match j.getField "@type" with
  | some t => update_json_type_count counts t
  | none => counts

/-- The mutable extraction context: the schema_data accumulator, the
site's seen-keys set (crawler.json_keys, persisted to keys/<site>.txt)
and the site's type counters (crawler.json_type_counts). -/
structure ExtractState where
  records : List Json
  seen : List Json
  counts : List (Json × Nat)
deriving DecidableEq

/-- Processing of one successfully parsed JSON-LD script block (the body
of the try in extract_schema_org). none models an exception that the
json.JSONDecodeError handler does not catch (dict.update on a non-dict).
A scalar block is silently ignored, as in the source. -/
def processBlock (url ts : String) (st : ExtractState) (data : Json) :
    Option ExtractState :=
  match data with
  | .arr items =>
      let r := arrayNewObjects st.seen items
      if r.1.isEmpty then some { st with seen := r.2 }
      else if r.1.length > 1 then
        let record := Json.obj [("url", Json.str url), ("timestamp", Json.str ts),
                               ("items", Json.arr r.1)]
        some { records := st.records ++ [record], seen := r.2,
               counts := r.1.foldl countTypeOf st.counts }
      else
        match r.1 with
        | [Json.obj kvs] =>
            some { records := st.records ++ [flattenRec url ts kvs], seen := r.2,
                   counts := countTypeOf st.counts (Json.obj kvs) }
        | _ => none
  | .obj kvs =>
      match kvs.lookup "@graph" with
      | some g =>
          match g with
          | .arr gitems =>
              match graphNewItems st.seen gitems with
              | some r =>
                  some { records := st.records ++ r.1.map (flattenRec url ts),
                         seen := r.2,
                         counts := r.1.foldl (fun c e => countTypeOf c (Json.obj e))
                           st.counts }
              | none => none
          | .str s => if s.isEmpty then some st else none
          | .obj g2 => if g2.isEmpty then some st else none
          | _ => none
      | none =>
          let key := extract_json_key (Json.obj kvs)
          let seen2 : List Json :=
            match key with
            | some k => if k.truthy ∧ k ∉ st.seen then k :: st.seen else st.seen
            | none => st.seen
          let record := Json.obj [("schema", Json.obj kvs), ("url", Json.str url),
                                  ("timestamp", Json.str ts)]
          some { records := st.records ++ [record], seen := seen2,
                 counts := countTypeOf st.counts (Json.obj kvs) }
  | _ => some st

/-- The loop over the JSON-LD script blocks: none in the input list is a
block whose text json.loads rejects (json.JSONDecodeError, silently
skipped). -/
def foldBlocks (url ts : String) (st : ExtractState) :
    List (Option Json) → Option ExtractState
  | [] => some st
  | none :: rest => foldBlocks url ts st rest
  | some data :: rest =>
      match processBlock url ts st data with
      | none => none
      | some st2 => foldBlocks url ts st2 rest

/-- The BeautifulSoup queries synthesize_schema makes, abstracted: for
each tag an outer none means the tag is absent, and the inner option is
its content attribute. The title field carries soup.title.string (inner
none when the title tag has no string, which makes .strip() raise). -/
structure Soup where
  title : Option (Option String)
  metaDescription : Option (Option String)
  ogTitle : Option (Option String)
  ogDescription : Option (Option String)
  ogImage : Option (Option String)
  ogImageWidth : Option (Option String)
  ogImageHeight : Option (Option String)
  articlePublishedTime : Option (Option String)
  articleModifiedTime : Option (Option String)
  articleAuthor : Option (Option String)
  metaAuthor : Option (Option String)
  ogSiteName : Option (Option String)
  ogLogo : Option (Option String)
deriving DecidableEq

/-- The Python guard `tag and tag.get("content")`: a content value is
used only when the tag exists and the attribute is a nonempty string. -/
def tagContent : Option (Option String) → Option String
  | some (some c) => if c = "" then none else some c
  | _ => none

/-- Python `a or b` on optional strings, where None and "" are falsy. -/
def strOr (a b : Option String) : Option String :=
  match a with
  | some s => if s = "" then b else some s
  | none => b

/-- Python int(s) on a string: optional sign after surrounding
whitespace, then decimal digits; none models ValueError. (Digit-group
underscores accepted by CPython are not modelled; no claim uses them.) -/
def pyInt (s : String) : Option Int :=
  let ws : Char → Bool := fun c => c = ' ' || c = '\t' || c = '\n' || c = '\r'
  let t := ((s.data.dropWhile ws).reverse.dropWhile ws).reverse
  let neg := t.headD ' ' = '-'
  let core := if neg || t.headD ' ' = '+' then t.drop 1 else t
  if core.isEmpty || !core.all Char.isDigit then none
  else
    let n : Nat := core.foldl (fun acc c => acc * 10 + (c.toNat - 48)) 0
    if neg then some (-(n : Int)) else some (n : Int)

/-- The og:image width/height handling: when the meta tag has truthy
content, int() is applied to it; a non-numeric value raises ValueError
(none). -/
def addDim (fields : List (String × Json)) (tag : Option (Option String))
    (name : String) : Option (List (String × Json)) :=
  match tagContent tag with
  | none => some fields
  | some c =>
      match pyInt c with
      | none => none
      | some n => some (fields ++ [(name, Json.num n)])

/-- Optional string to the JSON value stored for it (Python None becomes
JSON null on dump). -/
def optStr : Option String → Json
  | some s => Json.str s
  | none => Json.null

/-- The optional trailing fields after the image slot: datePublished
and dateModified when the article meta tags carry truthy content, the
author Person from article:author (falling back to meta name=author)
and the publisher Organization from og:site_name with an og:logo
ImageObject when present. -/
def synthTail (soup : Soup) (image : Option Json) : List (String × Json) :=
  let e0 : List (String × Json) :=
    match image with
    | some img => [("image", img)]
    | none => []
  let e1 := match tagContent soup.articlePublishedTime with
    | some c => e0 ++ [("datePublished", Json.str c)]
    | none => e0
  let e2 := match tagContent soup.articleModifiedTime with
    | some c => e1 ++ [("dateModified", Json.str c)]
    | none => e1
  let authorTag : Option (Option String) :=
    match soup.articleAuthor with
    | some c => some c
    | none => soup.metaAuthor
  let e3 := match tagContent authorTag with
    | some a => e2 ++ [("author",
        Json.obj [("@type", Json.str "Person"), ("name", Json.str a)])]
    | none => e2
  match tagContent soup.ogSiteName with
  | none => e3
  | some site =>
      let base := [("@type", Json.str "Organization"),
                   ("name", Json.str site)]
      match tagContent soup.ogLogo with
      | none => e3 ++ [("publisher", Json.obj base)]
      | some logo => e3 ++ [("publisher", Json.obj (base ++
          [("logo", Json.obj [("@type", Json.str "ImageObject"),
                              ("url", Json.str logo)])]))]

/-- The unconditional head of the synthesized record, in the source's
construction order: url, timestamp, at-context, at-type (BlogPosting
exactly when an article:published_time meta tag exists), the
mainEntityOfPage back-reference to the page URL, headline and
description (null when absent). -/
def synthCore (soup : Soup) (title1 desc1 : Option String)
    (url ts : String) : List (String × Json) :=
  [("url", Json.str url), ("timestamp", Json.str ts),
   ("@context", Json.str "https://schema.org"),
   ("@type", Json.str (if soup.articlePublishedTime.isSome
     then "BlogPosting" else "WebPage")),
   ("mainEntityOfPage", Json.obj [("@type", Json.str "WebPage"),
                                  ("@id", Json.str url)]),
   ("headline", optStr title1), ("description", optStr desc1)]

/-- The conditionally added fields of the synthesized record, in the
source's assignment order: image (with optional width/height), the
publication dates, author and publisher. none models the ValueError
int() raises on a non-numeric og:image dimension. -/
def synthExtras (soup : Soup) : Option (List (String × Json)) :=
  match tagContent soup.ogImage with
  | none => some (synthTail soup none)
  | some c =>
      let base := [("@type", Json.str "ImageObject"), ("url", Json.str c)]
      match addDim base soup.ogImageWidth "width" with
      | none => none
      | some f1 =>
          match addDim f1 soup.ogImageHeight "height" with
          | none => none
          | some f2 => some (synthTail soup (some (Json.obj f2)))

/-- The headline of the synthesized record: the stripped title string,
falling back to og:title content when the title is missing or empty
(Python `title or og_title["content"]`). -/
def synthTitle (soup : Soup) : Option String :=
  match tagContent soup.ogTitle with
  | some c => strOr (soup.title.bind id) (some c)
  | none => soup.title.bind id

/-- The description of the synthesized record: meta description content
falling back to og:description content. -/
def synthDesc (soup : Soup) : Option String :=
  match tagContent soup.ogDescription with
  | some c => strOr (tagContent soup.metaDescription) (some c)
  | none => tagContent soup.metaDescription

/-- crawler.synthesize_schema: build a JSON-LD-like record from meta and
OpenGraph tags. none models an uncaught exception: .strip() on a
missing title string, or int() on a non-numeric og:image dimension.
The record is the core fields followed by the conditional extras,
matching the source's dict construction order. -/
def synthesize_schema (soup : Soup) (url ts : String) : Option Json :=
  match soup.title with
  | some none => none
  | _ =>
      match synthExtras soup with
      | none => none
      | some extras =>
          some (Json.obj (synthCore soup (synthTitle soup) (synthDesc soup)
            url ts ++ extras))

/-- A fetched page as the extractor sees it: the parsed JSON-LD script
blocks (none = text json.loads rejects) and the soup queries. -/
structure Page where
  scripts : List (Option Json)
  soup : Soup
deriving DecidableEq

/-- A soup in which no tag of interest occurs, for concrete pages. -/
def emptySoup : Soup :=
  ⟨none, none, none, none, none, none, none, none, none, none, none, none,
   none⟩

/-- crawler.extract_schema_org: process every JSON-LD block, then fall
back to synthesis when no record was produced. Returns the emitted
records together with the updated seen-keys set and type counters, or
none when an uncaught exception escapes. -/
def extract_schema_org (page : Page) (url ts : String)
    (seen : List Json) (counts : List (Json × Nat)) : Option ExtractState :=
  match foldBlocks url ts { records := [], seen := seen, counts := counts }
      page.scripts with
  | none => none
  | some st =>
      if st.records.isEmpty then
        match synthesize_schema page.soup url ts with
        | none => none
        | some record =>
            if record.truthy then some { st with records := [record] }
            else some st
      else some st

/-- The per-site on-disk artifacts reconcile_removed_pages touches. File
contents are the parsed values; a missing json/embeddings/keys file loads
as the empty list exactly as the source's `if os.path.exists` defaults
do, so absent and empty files are identified. -/
structure SiteStore where
  docs : List String
  jsonRecords : List Json
  embeddings : List Json
  keys : List Json
  status : Option (List (String × Json))
deriving DecidableEq

/-- Whether a value out of the stored-urls set is a plain string (the
only shape url_to_filename can md5 without raising). -/
def isStrUrl : Option Json → Bool
  | some (.str _) => true
  | _ => false

/-- The string payload of a stored url value. -/
def strUrlOf : Option Json → Option String
  | some (.str s) => some s
  | _ => none

/-- The string payload of a JSON value, for dict keys that json.dump
writes back (non-string Counter keys cannot arise on the paths the
claims exercise). -/
def strOfJson : Json → String
  | .str s => s
  | _ => ""

/-- Whether a JSON value is a string. -/
def isStrJson : Json → Bool
  | .str _ => true
  | _ => false

/-- The status rewrite at the end of reconcile_removed_pages: only an
existing status file is updated; Counter over an unhashable at-type
value raises before the file is rewritten, leaving it unchanged. -/
def reconcileStatusUpdate (status : Option (List (String × Json)))
    (current : List String) (jsonAfter : List Json) (nowTs : String) :
    Option (List (String × Json)) :=
  match status with
  | none => none
  | some st =>
      let types := jsonAfter.map (fun r => (r.getField "@type").getD (Json.str "Unknown"))
      if types.all isStrJson then
        let counter := types.foldl bumpCount []
        some (assocSet (assocSet (assocSet (assocSet st
          "total_urls" (Json.num current.dedup.length))
          "crawled_urls" (Json.num jsonAfter.length))
          "json_stats" (Json.obj
            [("total_objects", Json.num jsonAfter.length),
             ("type_counts", Json.obj
               (counter.map (fun p => (strOfJson p.1, Json.num p.2))))]))
          "last_updated" (Json.str nowTs))
      else some st

/-- The deleted-urls set of reconcile_removed_pages: the stored url
values (set-deduplicated) minus the current URL list. A stored value
that is not a plain string (a missing url field gives None) can never
match a current URL, so it always lands in the deleted set. -/
def deletedUrlsOf (store : SiteStore) (current : List String) :
    List (Option Json) :=
  ((store.jsonRecords.map (fun r => r.getField "url")).dedup).filter
    (fun v =>
      match strUrlOf v with
      | some s => !current.contains s
      | none => true)

/-- The per-url cleanup loop plus the three file rewrites of
reconcile_removed_pages, applied for the deleted url strings delStrs:
drop the deleted docs files, drop json records / embeddings / keys
entries whose url (resp. key) is deleted, and rewrite the status file. -/
def reconcileApply (fn : String → String) (store : SiteStore)
    (delStrs : List String) (current : List String) (nowTs : String) :
    SiteStore :=
  { docs := store.docs.filter (fun f => delStrs.all (fun s => fn s ≠ f)),
    jsonRecords := store.jsonRecords.filter (fun r =>
      delStrs.all (fun s => r.getField "url" ≠ some (Json.str s))),
    embeddings := store.embeddings.filter (fun e =>
      delStrs.all (fun s => e.getField "key" ≠ some (Json.str s))),
    keys := store.keys.filter (fun kk =>
      delStrs.all (fun s => kk.getField "key" ≠ some (Json.str s))),
    status := reconcileStatusUpdate store.status current
      (store.jsonRecords.filter (fun r =>
        delStrs.all (fun s => r.getField "url" ≠ some (Json.str s)))) nowTs }

/-- crawler.reconcile_removed_pages. fn abstracts url_to_filename
(md5 of the url plus ".html"). The result pairs the argument lists of
the delete_documents_by_urls invocations made during the pass with the
resulting store; a none store models an exception aborting the pass
(entry.get on a non-dict record, or url_to_filename on a stored url
that is not a string). -/
def reconcile_removed_pages (fn : String → String) (store : SiteStore)
    (current : List String) (nowTs : String) :
    List (List (Option Json)) × Option SiteStore :=
  if !store.jsonRecords.all Json.isObj then
    ([], none)
  else
    let deleted := deletedUrlsOf store current
    if deleted.isEmpty then ([], some store)
    else
      let calls := [deleted]
      if deleted.all isStrUrl && store.embeddings.all Json.isObj &&
          store.keys.all Json.isObj then
        (calls, some (reconcileApply fn store (deleted.filterMap strUrlOf)
          current nowTs))
      else
        (calls, none)

/-- The characters after the first "//" of a URL, none when there is no
"//" part. -/
def afterSlashSlash : List Char → Option (List Char)
  | [] => none
  | '/' :: '/' :: rest => some rest
  | _ :: rest => afterSlashSlash rest

/-- The network-location characters: everything up to the next '/', '?'
or '#'. -/
def hostChars : List Char → List Char
  | [] => []
  | c :: cs => if c = '/' ∨ c = '?' ∨ c = '#' then [] else c :: hostChars cs

/-- urlparse(url).netloc for the absolute URLs the crawler handles: the
text between the first "//" and the following '/', '?' or '#'; empty
when the URL has no network-location part. -/
def netloc (url : String) : String :=
  match afterSlashSlash url.data with
  | some rest => String.mk (hostChars rest)
  | none => ""

/-- crawler.get_domain. -/
def get_domain (url : String) : String := netloc url

/-- get_site_name (app.py and crawler.py): the host with dots replaced
by underscores. -/
def get_site_name (url : String) : String :=
  String.mk ((netloc url).data.map (fun c => if c = '.' then '_' else c))

/-- The crawler object's mutable state and the per-site files fetch_url
touches. Timestamps are rationals; crawledFiles is the in-memory
crawled_urls set of saved docs filenames per site (kept duplicate-free);
keysSeen is json_keys (seen JSON-LD identifiers, persisted to
keys/<site>.txt). -/
structure CrawlerState where
  deletedSites : List String
  statusFiles : List (String × List (String × Json))
  crawledFiles : List (String × List String)
  lastCrawled : List (String × Rat)
  domainBackoff : List (String × Rat)
  siteQueues : List (String × List String)
  urlQueue : List (String × String)
  siteErrors : List (String × List (String × Nat))
  jsonFiles : List (String × List Json)
  keysSeen : List (String × List Json)
  typeCounts : List (String × List (Json × Nat))
  lastSiteIndex : Nat
deriving DecidableEq

/-- crawler.track_error: bump the per-site counter for an error code. -/
def track_error (errors : List (String × List (String × Nat)))
    (site code : String) : List (String × List (String × Nat)) :=
  let m := (errors.lookup site).getD []
  let m2 := if (m.lookup code).isSome
    then m.map (fun p => if p.1 = code then (p.1, p.2 + 1) else p)
    else m ++ [(code, 1)]
  assocSet errors site m2

/-- Sum of the values of a type-count table. -/
def sumCounts (tc : List (Json × Nat)) : Nat := tc.foldl (fun a p => a + p.2) 0

/-- crawler.update_site_status: read-modify-write of status/<site>.json,
optionally setting crawled_urls, then merging in the in-memory error
counters and type statistics and stamping last_updated. -/
def update_site_status (st : CrawlerState) (site : String)
    (crawledCount : Option Nat) (nowTs : String) :
    List (String × List (String × Json)) :=
  let s0 := get_site_status (st.statusFiles.lookup site)
  let s1 := match crawledCount with
    | some n => assocSet s0 "crawled_urls" (Json.num n)
    | none => s0
  let s2 := match st.siteErrors.lookup site with
    | some errs => assocSet s1 "errors"
        (Json.obj (errs.map (fun p => (p.1, Json.num p.2))))
    | none => s1
  let s3 := match st.typeCounts.lookup site with
    | some tc => assocSet s2 "json_stats" (Json.obj
        [("total_objects", Json.num (sumCounts tc)),
         ("type_counts", Json.obj (tc.map (fun p => (strOfJson p.1, Json.num p.2))))])
    | none => s2
  let s4 := assocSet s3 "last_updated" (Json.str nowTs)
  assocSet st.statusFiles site s4

/-- crawler.can_crawl_domain at gate time now: false while the domain is
inside an unexpired 429 backoff window (entry kept); an expired entry is
deleted; otherwise the worker sleeps out the remainder of the 1.0s
minimum spacing and the gate answers true. Returns the answer and the
resulting domain_backoff map. -/
def can_crawl_domain (backoff : List (String × Rat)) (domain : String)
    (now : Rat) : Bool × List (String × Rat) :=
  match backoff.lookup domain with
  | some untilT =>
      if now < untilT then (false, backoff)
      else (true, backoff.filter (fun p => p.1 ≠ domain))
  | none => (true, backoff)

/-- Network outcome of the GET in fetch_url: timeout and exc are raised
before any response arrives; response carries the HTTP status and
whether reading the body succeeded (the body read can itself time out
on a 200). -/
inductive FetchOutcome where
  | timeout : FetchOutcome
  | exc : FetchOutcome
  | response : Nat → Bool → FetchOutcome
deriving DecidableEq

/-- Python set.add on a duplicate-free list. -/
def insertNew (l : List String) (x : String) : List String :=
  if x ∈ l then l else l ++ [x]

/-- The shared error handling of fetch_url's except clauses and non-200
logging: count the error bucket and rewrite the status file. -/
def fetchErrorStep (st : CrawlerState) (site code nowTs : String) :
    CrawlerState :=
  let st2 := { st with siteErrors := track_error st.siteErrors site code }
  { st2 with statusFiles := update_site_status st2 site none nowTs }

/-- crawler.fetch_url as a state transition. fn abstracts
url_to_filename (md5 hex + ".html"); now is the gate-check instant,
tDone the request completion instant written into last_crawled, nowTs
the timestamp string for records, backoffUntil the randomized 429
deadline, and page the parsed body used on a 200. On an extraction
exception the keys appended to keys/<site>.txt before the raise are not
replayed here; no claim evaluates that corner. -/
def fetch_url (fn : String → String) (st : CrawlerState) (site url : String)
    (now tDone : Rat) (nowTs : String) (backoffUntil : Rat)
    (outcome : FetchOutcome) (page : Page) : CrawlerState :=
  if site ∈ st.deletedSites then st
  else
    let status := get_site_status (st.statusFiles.lookup site)
    if statusPaused status then
      { st with siteQueues :=
          assocSet st.siteQueues site ((st.siteQueues.lookup site).getD [] ++ [url]) }
    else if fn url ∈ (st.crawledFiles.lookup site).getD [] then st
    else
      let domain := get_domain url
      let gate := can_crawl_domain st.domainBackoff domain now
      if !gate.1 then
        { st with urlQueue := st.urlQueue ++ [(site, url)] }
      else
        let st1 := { st with domainBackoff := gate.2 }
        match outcome with
        | .timeout => fetchErrorStep st1 site "TIMEOUT" nowTs
        | .exc => fetchErrorStep st1 site "ERROR" nowTs
        | .response code bodyOk =>
            let st2 := { st1 with
                lastCrawled := assocSet st1.lastCrawled domain tDone }
            if code = 200 then
              if !bodyOk then fetchErrorStep st2 site "TIMEOUT" nowTs
              else
                match extract_schema_org page url nowTs
                    ((st2.keysSeen.lookup site).getD [])
                    ((st2.typeCounts.lookup site).getD []) with
                | none => fetchErrorStep st2 site "ERROR" nowTs
                | some ex =>
                    let st3 := { st2 with
                        keysSeen := assocSet st2.keysSeen site ex.seen,
                        typeCounts := assocSet st2.typeCounts site ex.counts }
                    let st4 :=
                      if ex.records.isEmpty then st3
                      else
                        let jf := assocSet st3.jsonFiles site
                          ((st3.jsonFiles.lookup site).getD [] ++ ex.records)
                        { st3 with jsonFiles := jf }
                    let newFiles := insertNew
                      ((st4.crawledFiles.lookup site).getD []) (fn url)
                    let st5 := { st4 with
                        crawledFiles := assocSet st4.crawledFiles site newFiles }
                    { st5 with statusFiles :=
                        update_site_status st5 site (some newFiles.length) nowTs }
            else
              let st3 := fetchErrorStep st2 site (toString code) nowTs
              if code = 429 then
                { st3 with
                    domainBackoff := assocSet st3.domainBackoff domain backoffUntil,
                    siteQueues :=
                      assocSet st3.siteQueues site
                        ((st3.siteQueues.lookup site).getD [] ++ [url]) }
              else st3

/-- crawler.get_next_url: take from the shared url_queue first (the
asyncio queue the backoff path requeues into); only when it is empty
fall back to round-robin over the per-site queues. The source's inner
for-loop pops on its first probe because every active site has a
non-empty queue, so one probe is modelled. -/
def get_next_url (st : CrawlerState) :
    Option ((String × String) × CrawlerState) :=
  match st.urlQueue with
  | p :: rest => some (p, { st with urlQueue := rest })
  | [] =>
      if st.siteQueues.isEmpty then none
      else
        let active := st.siteQueues.filter
          (fun p => !p.2.isEmpty && !st.deletedSites.contains p.1)
        if h : active.length = 0 then none
        else
          let idx := (st.lastSiteIndex + 1) % active.length
          let chosen := active.get ⟨idx, Nat.mod_lt _ (Nat.pos_of_ne_zero h)⟩
          match chosen.2 with
          | [] => none
          | u :: qrest =>
              some ((chosen.1, u),
                { st with lastSiteIndex := idx,
                          siteQueues := assocSet st.siteQueues chosen.1 qrest })

/-- Timing of one fetch attempt against a fixed domain: the instant the
can_crawl_domain gate reads last_crawled, the instant the GET is issued
after the gate's sleep, and the completion instant at which
last_crawled[domain] is assigned. -/
structure Attempt where
  check : Rat
  start : Rat
  done : Rat
deriving DecidableEq

/-- The last_crawled value a gate read at time t observes: the completion
time of the latest attempt whose write happened strictly before t, none
when no fetch to the domain has completed yet. -/
def lastWriteBefore (tr : List Attempt) (t : Rat) : Option Rat :=
  (tr.filterMap (fun a => if a.done < t then some a.done else none)).foldl
    (fun acc d =>
      match acc with
      | none => some d
      | some m => some (max m d)) none

/-- The start time the gate enforces, translated from can_crawl_domain:
with a recorded last_crawled it sleeps out the remainder of the 1.0s
minimum spacing (MIN_DELAY_SAME_SITE); with none it starts at once. -/
def gateStart (lastVal : Option Rat) (now : Rat) : Rat :=
  match lastVal with
  | some t => if now - t < 1 then now + (1 - (now - t)) else now
  | none => now

/-- A trace of fetch attempts on one domain is valid when every attempt
obeys the gate discipline of can_crawl_domain and its fetch takes
nonnegative time. Concurrent workers produce attempts whose gate checks
interleave with other attempts' completions. -/
def ValidTrace (tr : List Attempt) : Prop :=
  ∀ a ∈ tr, a.start = gateStart (lastWriteBefore tr a.check) a.check ∧
    a.start ≤ a.done

/-- app.process_site_background's sitemap loop. web is the network
oracle: for a sitemap URL it returns the page URLs parse_sitemap keeps
and the sub-sitemaps it enqueues. The loop pops the frontier head,
skips already-processed sitemaps, and appends sub-sitemaps to the
frontier tail. Runs on fuel; none models running out of fuel, and the
termination theorem shows enough fuel always exists. Returns the list
of sitemaps processed in order and the accumulated page URLs. -/
def processSitemaps (web : String → List String × List String) :
    Nat → List String → List String → List String →
    Option (List String × List String)
  | 0, [], processed, acc => some (processed, acc)
  | 0, _ :: _, _, _ => none
  | _ + 1, [], processed, acc => some (processed, acc)
  | fuel + 1, u :: rest, processed, acc =>
      if u ∈ processed then processSitemaps web fuel rest processed acc
      else processSitemaps web fuel (rest ++ (web u).2) (processed ++ [u])
        (acc ++ (web u).1)

/-- The filesystem slice the /process handler and its collaborators
touch, one association list per data subdirectory. -/
structure AppFS where
  statusFiles : List (String × List (String × Json))
  urlsFiles : List (String × List String)
  docsDirs : List (String × List String)
  jsonFiles : List (String × List Json)
  embFiles : List (String × List Json)
  keysJsonFiles : List (String × List Json)
  keysTxtFiles : List (String × List String)
deriving DecidableEq

/-- Responses of the /process handler. -/
inductive ProcessResp where
  | badRequest : String → ProcessResp
  | alreadyExisted : String → Nat → ProcessResp
  | accepted : String → ProcessResp
deriving DecidableEq

/-- The site-name validation regex [a-zA-Z0-9_]+ of app.process. -/
def validSiteName (s : String) : Bool :=
  s ≠ "" && s.toList.all (fun c => c.isAlpha || c.isDigit || c = '_')

/-- The site name the /process handler uses: the validated custom
site_name when one was posted, else the name derived from the URL; none
when the custom name fails the regex (a 400). -/
def deriveSiteName (u : String) (siteNameParam : String) : Option String :=
  if siteNameParam ≠ "" then
    if validSiteName siteNameParam then some siteNameParam else none
  else some (get_site_name u)

/-- app.process (POST /process). Inputs are the stripped url and
site_name fields of the request body (site_name empty when absent).
Returns the response, the resulting filesystem, and whether a
background sitemap job was submitted. -/
def processRoute (fs : AppFS) (url : Option String) (siteNameParam : String)
    (nowTs : String) : ProcessResp × AppFS × Bool :=
  match url with
  | none => (.badRequest "URL is required", fs, false)
  | some u =>
      if u = "" then (.badRequest "URL is required", fs, false)
      else
        match deriveSiteName u siteNameParam with
        | none => (.badRequest "Site name can only contain letters, numbers, and underscores", fs, false)
        | some site =>
            if (fs.statusFiles.lookup site).isSome then
              let cnt := ((fs.urlsFiles.lookup site).getD []).countP
                (fun line => line ≠ "")
              (.alreadyExisted site cnt, fs, false)
            else
              let initial : List (String × Json) :=
                [("total_urls", Json.num 0), ("crawled_urls", Json.num 0),
                 ("paused", Json.bool false), ("processing", Json.bool true),
                 ("sitemap_processed", Json.bool false),
                 ("original_url", Json.str u),
                 ("last_updated", Json.str nowTs)]
              (.accepted site,
               { fs with statusFiles := assocSet fs.statusFiles site initial },
               true)

/-! Helper lemmas about association lists. -/

theorem lookup_append_of_none {α β : Type} [BEq α] {l1 : List (α × β)}
    (l2 : List (α × β)) {k : α} (h : l1.lookup k = none) :
    (l1 ++ l2).lookup k = l2.lookup k := by
  induction l1 with
  | nil => rfl
  | cons p rest ih =>
      obtain ⟨a, b⟩ := p
      simp only [List.cons_append, List.lookup] at h ⊢
      cases hk : (k == a) with
      | true => simp [hk] at h
      | false => simp only [hk] at h ⊢; exact ih h

theorem lookup_append_of_some {α β : Type} [BEq α] {l1 : List (α × β)}
    (l2 : List (α × β)) {k : α} {v : β} (h : l1.lookup k = some v) :
    (l1 ++ l2).lookup k = some v := by
  induction l1 with
  | nil => simp [List.lookup] at h
  | cons p rest ih =>
      obtain ⟨a, b⟩ := p
      simp only [List.cons_append, List.lookup] at h ⊢
      cases hk : (k == a) with
      | true => simpa [hk] using h
      | false => simp only [hk] at h ⊢; exact ih h

theorem assocSet_lookup_self {α : Type} (m : List (String × α)) (k : String)
    (v : α) : (assocSet m k v).lookup k = some v := by
  unfold assocSet
  by_cases h : (m.lookup k).isSome = true
  · rw [if_pos h]
    induction m with
    | nil => simp [List.lookup] at h
    | cons p rest ih =>
        obtain ⟨a, b⟩ := p
        simp only [List.map_cons]
        by_cases hk : a = k
        · subst hk
          rw [if_pos rfl]
          simp [List.lookup]
        · rw [if_neg hk]
          have hba : (k == a) = false := by
            apply beq_eq_false_iff_ne.mpr
            exact fun hh => hk hh.symm
          simp only [List.lookup, hba] at h ⊢
          exact ih h
  · rw [if_neg h]
    have hn : m.lookup k = none := Option.not_isSome_iff_eq_none.mp h
    rw [lookup_append_of_none _ hn]
    simp [List.lookup]

/-!
C9.  The claim reads crawler.get_site_status's two default behaviors off
the source and then glosses both the missing-file and the legacy-file
case as "treated as unpaused and sitemap-complete".  The defaults are
exactly as claimed, but a legacy status file (one lacking the
sitemap_processed key) keeps its own paused flag, so a legacy file with
paused=true is NOT treated as unpaused.  The counterexample exhibits
such a file; the theorem proves the claim with that gloss restricted to
what the code does.
-/

/-- C9 (amended): for a site whose status file is absent, get_site_status
returns the default of paused=false, total_urls=0, crawled_urls=0,
sitemap_processed=true (unpaused and sitemap-complete, eligible for
fetching); for an existing status file lacking sitemap_processed it
appends sitemap_processed=true, leaving every stored field (including
any paused flag) unchanged, so a legacy file is treated as
sitemap-complete with its own pause state. -/
theorem C9_status_defaults (kvs : List (String × Json))
    (h : kvs.lookup "sitemap_processed" = none) :
    get_site_status none =
      [("paused", Json.bool false), ("total_urls", Json.num 0),
       ("crawled_urls", Json.num 0), ("sitemap_processed", Json.bool true)] ∧
    statusPaused (get_site_status none) = false ∧
    statusSitemapDone (get_site_status none) = true ∧
    get_site_status (some kvs) = kvs ++ [("sitemap_processed", Json.bool true)] ∧
    statusSitemapDone (get_site_status (some kvs)) = true ∧
    ∀ k, k ≠ "sitemap_processed" →
      (get_site_status (some kvs)).lookup k = kvs.lookup k := by
  have hsome : get_site_status (some kvs) = kvs ++ [("sitemap_processed", Json.bool true)] := by
    simp [get_site_status, h]
  refine ⟨rfl, rfl, rfl, hsome, ?_, ?_⟩
  · rw [statusSitemapDone, hsome, lookup_append_of_none _ h]
    simp [List.lookup, Json.truthy]
  · intro k hk
    rw [hsome]
    cases hke : kvs.lookup k with
    | some v => exact lookup_append_of_some _ hke
    | none =>
        rw [lookup_append_of_none _ hke]
        have : (k == "sitemap_processed") = false := by simp [hk]
        simp [List.lookup, this]

/-- C9 witness: the amended theorem applied to a concrete legacy status
file. -/
theorem C9_status_defaults_witness :
    ([("paused", Json.bool true)] : List (String × Json)).lookup
      "sitemap_processed" = none ∧
    statusSitemapDone (get_site_status (some [("paused", Json.bool true)])) =
      true :=
  ⟨by decide, (C9_status_defaults [("paused", Json.bool true)] (by decide)).2.2.2.2.1⟩

/-- C9 counterexample: a legacy status file (no sitemap_processed key)
recording paused=true is not treated as unpaused — get_site_status keeps
paused=true, refuting the claim's "a site with a missing or legacy
status file is treated as unpaused". -/
theorem C9_legacy_paused_file :
    statusPaused (get_site_status (some [("paused", Json.bool true)])) = true ∧
    (get_site_status (some [("paused", Json.bool true)])).lookup
      "sitemap_processed" = some (Json.bool true) := by
  exact ⟨by decide, by decide⟩

/-!
C10.  reconcile_removed_pages computes the deleted set as
set(entry.get("url") for entry in stored_json) - current_urls.  When a
record lacks a url field, entry.get("url") is None, None is never in the
current list, so the deletion path runs and delete_documents_by_urls is
invoked (with a null key) even though no stored url field is outside the
current list — refuting the unconditional no-op claim.  The amended
theorem requires every record to carry a url string contained in the
current list, which is what the extractor always writes.
-/

/-- C10 (amended): reconciliation is a no-op when every stored record
carries a url field whose string value is contained in the current URL
list: reconcile_removed_pages then returns with no delete
invocation and the store — docs, json, embeddings, keys and status —
unchanged. -/
theorem C10_reconcile_noop (fn : String → String) (store : SiteStore)
    (current : List String) (nowTs : String)
    (h : store.jsonRecords.all (fun r =>
      match strUrlOf (r.getField "url") with
      | some u => current.contains u
      | none => false) = true) :
    reconcile_removed_pages fn store current nowTs = ([], some store) := by
  have hrec : ∀ r ∈ store.jsonRecords, ∃ u,
      r.getField "url" = some (Json.str u) ∧ current.contains u = true := by
    intro r hr
    have hh := List.all_eq_true.mp h r hr
    cases hg : r.getField "url" with
    | none => rw [hg] at hh; simp [strUrlOf] at hh
    | some v =>
        rw [hg] at hh
        cases v with
        | str u => exact ⟨u, rfl, by simpa [strUrlOf] using hh⟩
        | null => simp [strUrlOf] at hh
        | bool b => simp [strUrlOf] at hh
        | num n => simp [strUrlOf] at hh
        | arr xs => simp [strUrlOf] at hh
        | obj kvs => simp [strUrlOf] at hh
  have hobj : store.jsonRecords.all Json.isObj = true := by
    rw [List.all_eq_true]
    intro r hr
    obtain ⟨u, hu, _⟩ := hrec r hr
    cases r <;> simp [Json.isObj] <;> simp [Json.getField] at hu
  have hfil : deletedUrlsOf store current = [] := by
    rw [deletedUrlsOf, List.filter_eq_nil_iff]
    intro v hv
    rw [List.mem_dedup] at hv
    obtain ⟨r, hr, hrv⟩ := List.mem_map.mp hv
    obtain ⟨u, hu, hcur⟩ := hrec r hr
    have hmem : u ∈ current := by simpa using hcur
    rw [← hrv, hu]
    simp [strUrlOf, hmem]
  unfold reconcile_removed_pages
  rw [hobj]
  simp only [Bool.not_true, Bool.false_eq_true, if_false, hfil,
    List.isEmpty_nil, if_true]


/-- C10 witness: the amended theorem applied to a store with one record
whose url is still current. -/
theorem C10_reconcile_noop_witness :
    ([Json.obj [("url", Json.str "u")]].all (fun r =>
      match strUrlOf (r.getField "url") with
      | some u => ["u"].contains u
      | none => false) = true) ∧
    reconcile_removed_pages (fun s => s ++ ".html")
      ⟨["u.html"], [Json.obj [("url", Json.str "u")]], [], [], none⟩
      ["u"] "t0" =
      ([], some ⟨["u.html"], [Json.obj [("url", Json.str "u")]], [], [],
        none⟩) :=
  ⟨by decide, C10_reconcile_noop _ _ _ _ (by decide)⟩

/-- C10 counterexample: a store whose only record lacks a url field (so
every url field stored is vacuously contained in the current list), yet
reconcile_removed_pages invokes delete_documents_by_urls — with the
null stored-url value — instead of returning without external calls. -/
theorem C10_missing_url_triggers_delete :
    (reconcile_removed_pages (fun s => s ++ ".html")
      ⟨[], [Json.obj [("title", Json.str "x")]], [], [], none⟩ [] "t0").1 =
      [[(none : Option Json)]] := by rfl

/-!
C2.  The reconciliation pass computes the deleted set from the url
fields stored in json/<site>.json, not from the previous contents of
urls/<site>.txt.  A URL u removed from the url list whose fetched page
produced no json record under u (for instance when a single-item
JSON-LD array carried its own url field, which dict.update lets
overwrite the page url in the flattened record) is therefore never
reconciled: its docs file survives and delete_documents_by_urls is not
invoked for it.  The counterexample shows such a state; the amended
theorem proves the claim for URLs that do occur as a stored url field.
-/

/-- C2 (amended): for every URL u that occurs as the url field of some
record in json/<site>.json and is absent from the current URL list, one
reconciliation pass removes u from all four artifact stores — the docs
file fn u, the json records, the embeddings entries and the keys
entries — and u is passed to the single delete_documents_by_urls
invocation exactly once. (URLs removed from urls/<site>.txt that have
no stored json record are not reconciled, as the counterexample
shows.) The well-formedness hypotheses say every stored record is a
dict with a string url and the embeddings/keys entries are dicts,
which is what the pipeline writes. -/
theorem C2_reconcile_removes_stored_url (fn : String → String)
    (store : SiteStore) (current : List String) (nowTs : String) (u : String)
    (hwell : store.jsonRecords.all (fun r => isStrUrl (r.getField "url")) = true)
    (hemb : store.embeddings.all Json.isObj = true)
    (hkeys : store.keys.all Json.isObj = true)
    (hu : some (Json.str u) ∈ store.jsonRecords.map (fun r => r.getField "url"))
    (hcur : u ∉ current) :
    ∃ store2 deleted,
      reconcile_removed_pages fn store current nowTs = ([deleted], some store2) ∧
      deleted.Nodup ∧ some (Json.str u) ∈ deleted ∧
      fn u ∉ store2.docs ∧
      (∀ r ∈ store2.jsonRecords, r.getField "url" ≠ some (Json.str u)) ∧
      (∀ e ∈ store2.embeddings, e.getField "key" ≠ some (Json.str u)) ∧
      (∀ kk ∈ store2.keys, kk.getField "key" ≠ some (Json.str u)) := by
  have hobj : store.jsonRecords.all Json.isObj = true := by
    rw [List.all_eq_true] at hwell ⊢
    intro r hr
    have hh := hwell r hr
    cases r <;> simp [Json.isObj] <;> simp [Json.getField, isStrUrl] at hh
  have hmemS : some (Json.str u) ∈
      (store.jsonRecords.map (fun r => r.getField "url")).dedup :=
    List.mem_dedup.mpr hu
  have hmemD : some (Json.str u) ∈ deletedUrlsOf store current := by
    rw [deletedUrlsOf]
    refine List.mem_filter.mpr ⟨hmemS, ?_⟩
    simp [strUrlOf, hcur]
  have hne : (deletedUrlsOf store current).isEmpty = false := by
    cases hd : deletedUrlsOf store current with
    | nil => rw [hd] at hmemD; simp at hmemD
    | cons a l => rfl
  have hDstr : (deletedUrlsOf store current).all isStrUrl = true := by
    rw [List.all_eq_true]
    intro v hv
    have hv2 := (List.mem_filter.mp (by rw [deletedUrlsOf] at hv; exact hv)).1
    rw [List.mem_dedup] at hv2
    obtain ⟨r, hr, hrv⟩ := List.mem_map.mp hv2
    rw [← hrv]
    exact List.all_eq_true.mp hwell r hr
  have heq : reconcile_removed_pages fn store current nowTs =
      ([deletedUrlsOf store current],
       some (reconcileApply fn store
         ((deletedUrlsOf store current).filterMap strUrlOf) current nowTs)) := by
    unfold reconcile_removed_pages
    rw [hobj]
    simp only [Bool.not_true, Bool.false_eq_true, if_false, hne, hDstr, hemb,
      hkeys, Bool.and_self, Bool.and_true, Bool.true_and, if_true]
  have hdelS : u ∈ (deletedUrlsOf store current).filterMap strUrlOf :=
    List.mem_filterMap.mpr ⟨some (Json.str u), hmemD, rfl⟩
  refine ⟨_, _, heq, ?_, hmemD, ?_, ?_, ?_, ?_⟩
  · exact (List.nodup_dedup _).filter _
  · intro hmem
    rw [reconcileApply] at hmem
    have hp := (List.mem_filter.mp hmem).2
    have := List.all_eq_true.mp hp u hdelS
    simp at this
  · intro r hr
    have hp := (List.mem_filter.mp hr).2
    have := List.all_eq_true.mp hp u hdelS
    simpa using this
  · intro e he
    have hp := (List.mem_filter.mp he).2
    have := List.all_eq_true.mp hp u hdelS
    simpa using this
  · intro kk hkk
    have hp := (List.mem_filter.mp hkk).2
    have := List.all_eq_true.mp hp u hdelS
    simpa using this

/-- C2 witness: the amended theorem applied to a concrete store holding
one record, one embedding and one key for url u, all removed once u
leaves the URL list. -/
theorem C2_reconcile_removes_stored_url_witness :
    ([Json.obj [("url", Json.str "u")]].all (fun r =>
      isStrUrl (r.getField "url")) = true) ∧
    ("u" ∉ ([] : List String)) ∧
    ∃ store2 deleted,
      reconcile_removed_pages (fun s => s ++ ".html")
        ⟨["u.html"], [Json.obj [("url", Json.str "u")]],
         [Json.obj [("key", Json.str "u")]],
         [Json.obj [("key", Json.str "u")]], none⟩ [] "t0" =
        ([deleted], some store2) ∧
      deleted.Nodup ∧ some (Json.str "u") ∈ deleted ∧
      (fun s => s ++ ".html") "u" ∉ store2.docs ∧
      (∀ r ∈ store2.jsonRecords, r.getField "url" ≠ some (Json.str "u")) ∧
      (∀ e ∈ store2.embeddings, e.getField "key" ≠ some (Json.str "u")) ∧
      (∀ kk ∈ store2.keys, kk.getField "key" ≠ some (Json.str "u")) :=
  ⟨by decide, by decide,
   C2_reconcile_removes_stored_url (fun s => s ++ ".html")
     ⟨["u.html"], [Json.obj [("url", Json.str "u")]],
      [Json.obj [("key", Json.str "u")]],
      [Json.obj [("key", Json.str "u")]], none⟩ [] "t0" "u"
     (by decide) (by decide) (by decide) (by decide) (by decide)⟩

/-- C2 counterexample: the URL "u" has been removed from the URL list
(current list empty) and its fetched docs file is present, but no json
record stores url "u"; the reconciliation pass leaves the docs file in
place and never invokes delete_documents_by_urls, refuting the claim
that every removed URL is purged from all four stores with exactly one
delete invocation. -/
theorem C2_unstored_url_not_reconciled :
    reconcile_removed_pages (fun s => s ++ ".html")
      ⟨["u.html"], [], [], [], none⟩ [] "t0" =
      ([], some ⟨["u.html"], [], [], [], none⟩) := by rfl

/-!
C3.  In fetch_url the assignment last_crawled[domain] = time.time()
sits inside the `async with session.get(...)` block, so it runs exactly
when a response arrives (any status, even if the body read later times
out) and never runs when the GET itself raises TimeoutError or another
exception — those jump straight to the except clauses.  The claim's
"on timeout, and on exception alike" is therefore refuted.
-/

/-- C3 (amended): for a fetch attempt that reaches the HTTP request
(site not deleted, not paused, url not yet crawled, domain gate open),
the completion time tDone is recorded as the new last_crawled[domain]
whenever an HTTP response arrives — status 200 and non-200 alike, even
when the subsequent body read fails — but on a timeout or exception
raised before a response, last_crawled is left unchanged, so rate
limiting applies to responses, not to all attempts. -/
theorem C3_last_crawled_on_response (fn : String → String)
    (st : CrawlerState) (site url : String) (now tDone : Rat)
    (nowTs : String) (backoffUntil : Rat) (outcome : FetchOutcome)
    (page : Page)
    (hdel : site ∉ st.deletedSites)
    (hpause : statusPaused (get_site_status (st.statusFiles.lookup site)) =
      false)
    (hcrawl : fn url ∉ (st.crawledFiles.lookup site).getD [])
    (hgate : (can_crawl_domain st.domainBackoff (get_domain url) now).1 =
      true) :
    (∀ code bodyOk, outcome = .response code bodyOk →
      (fetch_url fn st site url now tDone nowTs backoffUntil outcome
        page).lastCrawled.lookup (get_domain url) = some tDone) ∧
    (outcome = .timeout ∨ outcome = .exc →
      (fetch_url fn st site url now tDone nowTs backoffUntil outcome
        page).lastCrawled = st.lastCrawled) := by
  constructor
  · intro code bodyOk hout
    subst hout
    unfold fetch_url
    rw [if_neg hdel]
    simp only [hpause, Bool.false_eq_true, if_false]
    rw [if_neg hcrawl]
    simp only [hgate, Bool.not_true, Bool.false_eq_true, if_false]
    by_cases h200 : code = 200
    · rw [if_pos h200]
      by_cases hbody : bodyOk = true
      · rw [hbody]
        simp only [Bool.not_true, Bool.false_eq_true, if_false]
        cases hex : extract_schema_org page url nowTs
            ((st.keysSeen.lookup site).getD [])
            ((st.typeCounts.lookup site).getD []) with
        | none => simp [fetchErrorStep]; exact assocSet_lookup_self _ _ _
        | some ex =>
            by_cases hrec : ex.records.isEmpty
            · simp [hrec]; exact assocSet_lookup_self _ _ _
            · simp [hrec]; exact assocSet_lookup_self _ _ _
      · have hb : bodyOk = false := by
          cases bodyOk
          · rfl
          · exact absurd rfl hbody
        rw [hb]
        simp [fetchErrorStep]
        exact assocSet_lookup_self _ _ _
    · rw [if_neg h200]
      by_cases h429 : code = 429
      · rw [if_pos h429]
        simp [fetchErrorStep]
        exact assocSet_lookup_self _ _ _
      · rw [if_neg h429]
        simp [fetchErrorStep]
        exact assocSet_lookup_self _ _ _
  · intro hout
    cases hout with
    | inl h =>
        subst h
        unfold fetch_url
        rw [if_neg hdel]
        simp only [hpause, Bool.false_eq_true, if_false]
        rw [if_neg hcrawl]
        simp only [hgate, Bool.not_true, Bool.false_eq_true, if_false]
        simp [fetchErrorStep]
    | inr h =>
        subst h
        unfold fetch_url
        rw [if_neg hdel]
        simp only [hpause, Bool.false_eq_true, if_false]
        rw [if_neg hcrawl]
        simp only [hgate, Bool.not_true, Bool.false_eq_true, if_false]
        simp [fetchErrorStep]

/-- C3 witness: the amended theorem applied to a fresh state and a 404
response; the completion time 5 is recorded for the domain. -/
theorem C3_last_crawled_on_response_witness :
    ("s" ∉ ([] : List String)) ∧
    ((fetch_url (fun s => s ++ ".html")
      ⟨[], [], [], [], [], [], [], [], [], [], [], 0⟩
      "s" "http://d.x/p" 0 5 "t0" 0 (FetchOutcome.response 404 true)
      ⟨[], emptySoup⟩).lastCrawled.lookup (get_domain "http://d.x/p") =
        some 5) :=
  ⟨by decide,
   (C3_last_crawled_on_response (fun s => s ++ ".html")
      ⟨[], [], [], [], [], [], [], [], [], [], [], 0⟩
      "s" "http://d.x/p" 0 5 "t0" 0 (FetchOutcome.response 404 true)
      ⟨[], emptySoup⟩ (by decide) (by rfl) (by decide) (by rfl)).1
      404 true rfl⟩

/-- C3 counterexample: the same fresh state and fetch attempt, but the
GET times out — last_crawled stays empty, no completion time is
recorded for the domain, refuting "the fetch-completion time is
recorded as the new last_crawled[d] regardless of the attempt's
outcome ... on timeout, and on exception alike". -/
theorem C3_timeout_not_recorded :
    (fetch_url (fun s => s ++ ".html")
      ⟨[], [], [], [], [], [], [], [], [], [], [], 0⟩
      "s" "http://d.x/p" 0 5 "t0" 0 FetchOutcome.timeout
      ⟨[], emptySoup⟩).lastCrawled = [] ∧
    (fetch_url (fun s => s ++ ".html")
      ⟨[], [], [], [], [], [], [], [], [], [], [], 0⟩
      "s" "http://d.x/p" 0 5 "t0" 0 FetchOutcome.exc
      ⟨[], emptySoup⟩).lastCrawled = [] := by
  exact ⟨by rfl, by rfl⟩

/-!
C4.  Paused-site and 429 requeues do append to the tail of the site's
own FIFO queue, but the backoff requeue does not: fetch_url puts the
pair back onto the shared asyncio url_queue
(`await self.url_queue.put((site_name, url))`), and get_next_url
services that queue before any site queue.  A backoff-retried URL can
therefore be dispatched ahead of URLs already waiting in the site's
queue, refuting the claim for the backoff case.
-/

/-- C4 (amended): paused-site and 429 requeues append the URL to the
tail of the site's FIFO queue; a URL whose domain is in unexpired
backoff is instead appended to the tail of the shared url_queue, which
get_next_url always services before any site queue, so a backoff-
requeued URL can be dispatched before URLs of the same site that were
already waiting in the site queue. -/
theorem C4_requeue_destinations (fn : String → String) (st : CrawlerState)
    (site url : String) (now tDone : Rat) (nowTs : String)
    (backoffUntil : Rat) (outcome : FetchOutcome) (page : Page)
    (hdel : site ∉ st.deletedSites) :
    (statusPaused (get_site_status (st.statusFiles.lookup site)) = true →
      (fetch_url fn st site url now tDone nowTs backoffUntil outcome
        page).siteQueues =
        assocSet st.siteQueues site
          ((st.siteQueues.lookup site).getD [] ++ [url])) ∧
    (statusPaused (get_site_status (st.statusFiles.lookup site)) = false →
     fn url ∉ (st.crawledFiles.lookup site).getD [] →
     (can_crawl_domain st.domainBackoff (get_domain url) now).1 = true →
     ∀ bodyOk, outcome = .response 429 bodyOk →
      (fetch_url fn st site url now tDone nowTs backoffUntil outcome
        page).siteQueues =
        assocSet st.siteQueues site
          ((st.siteQueues.lookup site).getD [] ++ [url])) ∧
    (statusPaused (get_site_status (st.statusFiles.lookup site)) = false →
     fn url ∉ (st.crawledFiles.lookup site).getD [] →
     (can_crawl_domain st.domainBackoff (get_domain url) now).1 = false →
      (fetch_url fn st site url now tDone nowTs backoffUntil outcome
        page).urlQueue = st.urlQueue ++ [(site, url)] ∧
      (fetch_url fn st site url now tDone nowTs backoffUntil outcome
        page).siteQueues = st.siteQueues) ∧
    (∀ (st2 : CrawlerState) (p : String × String)
       (rest : List (String × String)), st2.urlQueue = p :: rest →
      get_next_url st2 = some (p, { st2 with urlQueue := rest })) := by
  refine ⟨?_, ?_, ?_, ?_⟩
  · intro hpause
    unfold fetch_url
    rw [if_neg hdel]
    simp only [hpause, if_true]
  · intro hpause hcrawl hgate bodyOk hout
    subst hout
    unfold fetch_url
    rw [if_neg hdel]
    simp only [hpause, Bool.false_eq_true, if_false]
    rw [if_neg hcrawl]
    simp only [hgate, Bool.not_true, Bool.false_eq_true, if_false]
    have h200 : (429 = 200) = False := by simp
    simp [h200, fetchErrorStep, update_site_status]
  · intro hpause hcrawl hgate
    constructor
    · unfold fetch_url
      rw [if_neg hdel]
      simp only [hpause, Bool.false_eq_true, if_false]
      rw [if_neg hcrawl]
      simp only [hgate, Bool.not_false, if_true]
    · unfold fetch_url
      rw [if_neg hdel]
      simp only [hpause, Bool.false_eq_true, if_false]
      rw [if_neg hcrawl]
      simp only [hgate, Bool.not_false, if_true]
  · intro st2 p rest hq
    unfold get_next_url
    rw [hq]

/-- C4 witness: the amended theorem applied to a paused site (the URL
lands at the tail of the site queue behind the waiting URL) and to the
head of a url_queue. -/
theorem C4_requeue_destinations_witness :
    ("s" ∉ ([] : List String)) ∧
    statusPaused (get_site_status
      (([("s", [("paused", Json.bool true)])] :
        List (String × List (String × Json))).lookup "s")) = true ∧
    (fetch_url (fun s => s ++ ".html")
      ⟨[], [("s", [("paused", Json.bool true)])], [], [], [],
       [("s", ["http://d.x/old"])], [], [], [], [], [], 0⟩
      "s" "http://d.x/new" 0 0 "t0" 0 FetchOutcome.timeout
      ⟨[], emptySoup⟩).siteQueues =
      [("s", ["http://d.x/old", "http://d.x/new"])] :=
  ⟨by decide, by rfl, by
    have h := (C4_requeue_destinations (fun s => s ++ ".html")
      ⟨[], [("s", [("paused", Json.bool true)])], [], [], [],
       [("s", ["http://d.x/old"])], [], [], [], [], [], 0⟩
      "s" "http://d.x/new" 0 0 "t0" 0 FetchOutcome.timeout
      ⟨[], emptySoup⟩ (by decide)).1 (by rfl)
    rw [h]
    rfl⟩

/-- C4 counterexample: site s has URL u2 already waiting in its queue;
URL u1 of a domain in unexpired backoff is requeued by fetch_url onto
the shared url_queue — not the site queue's tail — and the next
get_next_url dispatches u1 ahead of the earlier-waiting u2, refuting
"the URL is appended to the tail of its site's FIFO queue — never
placed ahead of URLs already waiting". -/
theorem C4_backoff_requeue_jumps_queue :
    (fetch_url (fun s => s ++ ".html")
      ⟨[], [], [], [], [("d.x", 100)], [("s", ["http://d.x/2"])], [], [],
       [], [], [], 0⟩
      "s" "http://d.x/1" 0 0 "t0" 0 (FetchOutcome.response 200 true)
      ⟨[], emptySoup⟩).urlQueue = [("s", "http://d.x/1")] ∧
    (fetch_url (fun s => s ++ ".html")
      ⟨[], [], [], [], [("d.x", 100)], [("s", ["http://d.x/2"])], [], [],
       [], [], [], 0⟩
      "s" "http://d.x/1" 0 0 "t0" 0 (FetchOutcome.response 200 true)
      ⟨[], emptySoup⟩).siteQueues = [("s", ["http://d.x/2"])] ∧
    (get_next_url (fetch_url (fun s => s ++ ".html")
      ⟨[], [], [], [], [("d.x", 100)], [("s", ["http://d.x/2"])], [], [],
       [], [], [], 0⟩
      "s" "http://d.x/1" 0 0 "t0" 0 (FetchOutcome.response 200 true)
      ⟨[], emptySoup⟩)).map (fun p => p.1) = some ("s", "http://d.x/1") := by
  exact ⟨by rfl, by rfl, by rfl⟩

/-! Helper lemmas for the rate-limit trace model. -/

theorem foldMax_some (l : List Rat) (m0 : Rat) :
    l.foldl (fun acc x =>
      match acc with
      | none => some x
      | some m => some (max m x)) (some m0) = some (l.foldl max m0) := by
  induction l generalizing m0 with
  | nil => rfl
  | cons x l ih => simpa using ih (max m0 x)

theorem foldl_max_ge_init (l : List Rat) (m0 : Rat) : m0 ≤ l.foldl max m0 := by
  induction l generalizing m0 with
  | nil => exact le_refl m0
  | cons x l ih => exact le_trans (le_max_left m0 x) (ih (max m0 x))

theorem foldl_max_ge_mem {l : List Rat} {d : Rat} (hd : d ∈ l) (m0 : Rat) :
    d ≤ l.foldl max m0 := by
  induction l generalizing m0 with
  | nil => simp at hd
  | cons x l ih =>
      rcases List.mem_cons.mp hd with h | h
      · subst h
        exact le_trans (le_max_right m0 d) (foldl_max_ge_init l (max m0 d))
      · exact ih h (max m0 x)

theorem foldMax_of_mem {l : List Rat} {d : Rat} (hd : d ∈ l) :
    ∃ m, l.foldl (fun acc x =>
      match acc with
      | none => some x
      | some m0 => some (max m0 x)) (none : Option Rat) = some m ∧ d ≤ m := by
  cases l with
  | nil => simp at hd
  | cons x l =>
      refine ⟨l.foldl max x, by simpa using foldMax_some l x, ?_⟩
      rcases List.mem_cons.mp hd with h | h
      · subst h; exact foldl_max_ge_init l d
      · exact foldl_max_ge_mem h x

theorem gateStart_ge (t0 now : Rat) : t0 + 1 ≤ gateStart (some t0) now := by
  rw [gateStart]
  by_cases h : now - t0 < 1
  · rw [if_pos h]
    linarith
  · rw [if_neg h]
    linarith [not_lt.mp h]

/-!
C5.  can_crawl_domain reads last_crawled and sleeps, but the timestamp
for the domain is only written when a fetch completes, and nothing
serializes the read-sleep-fetch-write sequence across the N=10
cooperative fetch workers (both the sleep and the HTTP request are
suspension points).  Two workers can therefore both pass the gate
before either records a completion — most simply on the first two
fetches ever made to a domain — and complete less than 1 second apart,
refuting the claimed bound for every interleaving.  The spacing does
hold whenever fetches to the domain do not overlap, i.e. each gate
check happens after every earlier completion (in particular with a
single fetch worker).
-/

/-- C5 (amended): in every valid trace of fetch attempts on one domain,
any attempt b whose gate check happens after the completion of an
attempt a completes at least 1.0 second (MIN_DELAY_SAME_DOMAIN) after
a; so consecutive fetch completions are at least 1.0s apart whenever
fetches to the domain are serialized (no fetch's gate check precedes an
earlier fetch's completion), as with a single worker. With concurrent
workers the gate's read and the completion write are not atomic and the
bound fails (see the counterexample). -/
theorem C5_serialized_spacing (tr : List Attempt) (h : ValidTrace tr)
    (a b : Attempt) (ha : a ∈ tr) (hb : b ∈ tr) (hser : a.done < b.check) :
    a.done + 1 ≤ b.done := by
  obtain ⟨hbstart, hbdur⟩ := h b hb
  have hmem : a.done ∈ tr.filterMap (fun x =>
      if x.done < b.check then some x.done else none) :=
    List.mem_filterMap.mpr ⟨a, ha, by rw [if_pos hser]⟩
  obtain ⟨m, hm, hdm⟩ := foldMax_of_mem hmem
  have hlwb : lastWriteBefore tr b.check = some m := by
    rw [lastWriteBefore]; exact hm
  rw [hlwb] at hbstart
  have := gateStart_ge m b.check
  calc a.done + 1 ≤ m + 1 := by linarith
    _ ≤ gateStart (some m) b.check := this
    _ = b.start := hbstart.symm
    _ ≤ b.done := hbdur

/-- C5 witness: two serialized attempts (the second gate check at time 2,
after the first completion at time 0) are at least 1s apart. -/
theorem C5_serialized_spacing_witness :
    ValidTrace [⟨0, 0, 0⟩, ⟨2, 2, 2⟩] ∧
    ((⟨0, 0, 0⟩ : Attempt).done + 1 ≤ (⟨2, 2, 2⟩ : Attempt).done) := by
  have hv : ValidTrace [⟨0, 0, 0⟩, ⟨2, 2, 2⟩] := by
    intro a ha
    rcases List.mem_cons.mp ha with h | h
    · subst h
      refine ⟨?_, le_refl _⟩
      have h1 : lastWriteBefore [⟨0, 0, 0⟩, ⟨2, 2, 2⟩] (0 : Rat) = none := by
        rw [lastWriteBefore]
        norm_num
      rw [h1, gateStart]
    · rcases List.mem_cons.mp h with h2 | h2
      · subst h2
        refine ⟨?_, le_refl _⟩
        have h1 : lastWriteBefore [⟨0, 0, 0⟩, ⟨2, 2, 2⟩] (2 : Rat) =
            some 0 := by
          rw [lastWriteBefore]
          norm_num [List.filterMap_cons, List.filterMap_nil, List.foldl_cons,
            List.foldl_nil]
        rw [h1, gateStart]
        norm_num
      · simp at h2
  exact ⟨hv, C5_serialized_spacing _ hv ⟨0, 0, 0⟩ ⟨2, 2, 2⟩
    (by simp) (by simp) (by norm_num)⟩

/-- C5 counterexample: two workers both gate-check a fresh domain at
time 0 (no completion recorded yet), both pass the gate immediately,
and their fetches complete at 0 and 1/2 — a valid interleaving of the
fetch workers in which consecutive completions on the same domain are
only 1/2 second apart, refuting the claimed guarantee for every
interleaving. -/
theorem C5_concurrent_close_completions :
    ValidTrace [⟨0, 0, 0⟩, ⟨0, 0, 1/2⟩] ∧
    (⟨0, 0, 1/2⟩ : Attempt).done - (⟨0, 0, 0⟩ : Attempt).done < 1 := by
  have h1 : lastWriteBefore [(⟨0, 0, 0⟩ : Attempt), ⟨0, 0, 1/2⟩] (0 : Rat) =
      none := by
    rw [lastWriteBefore]
    norm_num
  constructor
  · intro a ha
    rcases List.mem_cons.mp ha with h | h
    · subst h
      exact ⟨by rw [h1, gateStart], le_refl _⟩
    · rcases List.mem_cons.mp h with h2 | h2
      · subst h2
        exact ⟨by rw [h1, gateStart], by norm_num⟩
      · simp at h2
  · norm_num

/-!
C6.  app.process checks for data/status/<site>.json before doing
anything else; a first successful registration creates that file
synchronously before returning, so a second POST with the same
url/site_name takes the already-exists branch, which only reads the
urls file and returns — no file is created or written and no background
job is submitted.
-/

/-- C6: registering a site is idempotent. If a POST /process with a
given url and site_name registers a site s (response accepted, a
background sitemap job submitted), then a second POST with the same
url and site_name returns already_existed for s, submits no background
job, and leaves the entire filesystem value — every on-disk artifact of
every site — unchanged. -/
theorem C6_process_idempotent (fs : AppFS) (url : Option String)
    (siteNameParam nowTs nowTs2 : String) (s : String) (fs2 : AppFS)
    (h : processRoute fs url siteNameParam nowTs = (.accepted s, fs2, true)) :
    ∃ cnt, processRoute fs2 url siteNameParam nowTs2 =
      (.alreadyExisted s cnt, fs2, false) := by
  cases url with
  | none => simp [processRoute] at h
  | some u =>
      by_cases hu : u = ""
      · rw [processRoute] at h
        rw [if_pos hu] at h
        simp at h
      · rw [processRoute] at h ⊢
        rw [if_neg hu] at h ⊢
        cases hsn : deriveSiteName u siteNameParam with
        | none => rw [hsn] at h; simp at h
        | some site =>
            rw [hsn] at h
            dsimp only at h ⊢
            by_cases hex : (fs.statusFiles.lookup site).isSome = true
            · rw [if_pos hex] at h
              simp at h
            · rw [if_neg hex] at h
              simp only [Prod.mk.injEq, ProcessResp.accepted.injEq] at h
              obtain ⟨hsite, hfs2, -⟩ := h
              subst hsite
              have hl : (fs2.statusFiles.lookup site).isSome = true := by
                rw [← hfs2]
                dsimp only
                rw [assocSet_lookup_self]
                rfl
              rw [if_pos hl]
              exact ⟨_, rfl⟩

/-- C6 witness: a concrete first registration on an empty filesystem
followed by the identical POST, which reports already_existed and
changes nothing. -/
theorem C6_process_idempotent_witness :
    processRoute ⟨[], [], [], [], [], [], []⟩ (some "https://ex.com")
      "mysite" "t0" =
      (.accepted "mysite",
       ⟨[("mysite",
          [("total_urls", Json.num 0), ("crawled_urls", Json.num 0),
           ("paused", Json.bool false), ("processing", Json.bool true),
           ("sitemap_processed", Json.bool false),
           ("original_url", Json.str "https://ex.com"),
           ("last_updated", Json.str "t0")])], [], [], [], [], [], []⟩,
       true) ∧
    ∃ cnt, processRoute
      ⟨[("mysite",
         [("total_urls", Json.num 0), ("crawled_urls", Json.num 0),
          ("paused", Json.bool false), ("processing", Json.bool true),
          ("sitemap_processed", Json.bool false),
          ("original_url", Json.str "https://ex.com"),
          ("last_updated", Json.str "t0")])], [], [], [], [], [], []⟩
      (some "https://ex.com") "mysite" "t1" =
      (.alreadyExisted "mysite" cnt,
       ⟨[("mysite",
          [("total_urls", Json.num 0), ("crawled_urls", Json.num 0),
           ("paused", Json.bool false), ("processing", Json.bool true),
           ("sitemap_processed", Json.bool false),
           ("original_url", Json.str "https://ex.com"),
           ("last_updated", Json.str "t0")])], [], [], [], [], [], []⟩,
       false) :=
  ⟨by rfl,
   C6_process_idempotent ⟨[], [], [], [], [], [], []⟩ (some "https://ex.com")
     "mysite" "t0" "t1" "mysite" _ (by rfl)⟩

/-- Helper for C7: the sitemap loop of process_site_background returns
(rather than running out of fuel) whenever the fuel is at least the
frontier length plus, for every reachable-but-unprocessed sitemap, one
processing step and one frontier slot per sub-sitemap; and the
processed list stays duplicate-free. R is any finite set containing
the frontier and closed under sub-sitemap references, so cycles are
allowed. -/
theorem processSitemaps_total (web : String → List String × List String)
    (R : Finset String)
    (hclosed : ∀ u ∈ R, ∀ v ∈ (web u).2, v ∈ R) :
    ∀ (fuel : Nat) (frontier processed acc : List String),
      (∀ u ∈ frontier, u ∈ R) →
      processed.Nodup →
      frontier.length +
        ((R.filter (fun x => x ∉ processed)).sum
          (fun u => 1 + (web u).2.length)) ≤ fuel →
      ∃ res, processSitemaps web fuel frontier processed acc = some res ∧
        res.1.Nodup := by
  intro fuel
  induction fuel with
  | zero =>
      intro frontier processed acc hfr hnd hm
      have hfr0 : frontier = [] := by
        cases frontier with
        | nil => rfl
        | cons u rest =>
            exfalso
            simp only [List.length_cons] at hm
            omega
      subst hfr0
      exact ⟨(processed, acc), rfl, hnd⟩
  | succ n ih =>
      intro frontier processed acc hfr hnd hm
      cases frontier with
      | nil => exact ⟨(processed, acc), rfl, hnd⟩
      | cons u rest =>
          by_cases hmem : u ∈ processed
          · rw [processSitemaps, if_pos hmem]
            apply ih rest processed acc
              (fun v hv => hfr v (List.mem_cons_of_mem u hv)) hnd
            simp only [List.length_cons] at hm
            omega
          · have huR : u ∈ R := hfr u (List.mem_cons_self u rest)
            rw [processSitemaps, if_neg hmem]
            apply ih
            · intro v hv
              rcases List.mem_append.mp hv with h | h
              · exact hfr v (List.mem_cons_of_mem u h)
              · exact hclosed u huR v h
            · refine List.Nodup.append hnd (List.nodup_singleton u) ?_
              intro a ha
              simp only [List.mem_singleton]
              intro hau
              subst hau
              exact hmem ha
            · have hfil : R.filter (fun x => x ∉ processed ++ [u]) =
                  (R.filter (fun x => x ∉ processed)).erase u := by
                have : R.filter (fun x => x ∉ processed ++ [u]) =
                    (R.filter (fun x => x ∉ processed)).filter
                      (fun x => x ≠ u) := by
                  rw [Finset.filter_filter]
                  apply Finset.filter_congr
                  intro x _
                  simp [List.mem_append, not_or, and_comm]
                rw [this, Finset.filter_ne']
              have huF : u ∈ R.filter (fun x => x ∉ processed) :=
                Finset.mem_filter.mpr ⟨huR, hmem⟩
              have hsum := Finset.add_sum_erase
                (R.filter (fun x => x ∉ processed))
                (fun v => 1 + (web v).2.length) huF
              dsimp only at hsum
              rw [hfil, List.length_append]
              simp only [List.length_cons] at hm
              generalize hL : (web u).2.length = L at hsum ⊢
              generalize hA : (R.filter (fun x => x ∉ processed)).sum
                (fun v => 1 + (web v).2.length) = A at hm hsum
              generalize hB : ((R.filter (fun x => x ∉ processed)).erase
                u).sum (fun v => 1 + (web v).2.length) = B at hsum ⊢
              omega

/-!
C7.  process_site_background pops the frontier head, skips sitemaps in
the processed set, records each fresh sitemap in the set before parsing
it, and appends sub-sitemaps to the frontier tail.  With the frontier
drawn from a finite, reference-closed set of sitemap URLs the loop
drains and no sitemap URL is processed twice, even under cycles.
-/

/-- C7: sitemap expansion terminates for every finite set of sitemap
URLs, even under cyclic sitemap-index references: for any network
oracle web, any finite set R of sitemap URLs containing the seeds and
closed under sub-sitemap references, the loop completes within an
explicit fuel bound (one processing step per distinct sitemap URL plus
one skip per frontier slot), and the list of processed sitemaps has no
duplicates — no sitemap URL is fetched or parsed twice. -/
theorem C7_sitemap_expansion_terminates
    (web : String → List String × List String) (R : Finset String)
    (seeds : List String) (fuel : Nat)
    (hseeds : ∀ u ∈ seeds, u ∈ R)
    (hclosed : ∀ u ∈ R, ∀ v ∈ (web u).2, v ∈ R)
    (hfuel : seeds.length + R.sum (fun u => 1 + (web u).2.length) ≤ fuel) :
    ∃ res, processSitemaps web fuel seeds [] [] = some res ∧
      res.1.Nodup := by
  apply processSitemaps_total web R hclosed fuel seeds [] [] hseeds
    List.nodup_nil
  have : R.filter (fun x => x ∉ ([] : List String)) = R := by
    apply Finset.filter_true_of_mem
    intro x _
    simp
  rw [this]
  exact hfuel

/-- C7 witness: the theorem applied to the two-element cyclic sitemap
web A to B to A; the loop drains with fuel 5 and processes each of A
and B exactly once. -/
theorem C7_sitemap_expansion_terminates_witness :
    (∀ u ∈ ({"A", "B"} : Finset String),
      ∀ v ∈ ((fun w => if w = "A" then (([] : List String), ["B"])
        else if w = "B" then (([] : List String), ["A"])
        else ([], [])) u).2, v ∈ ({"A", "B"} : Finset String)) ∧
    (∃ res, processSitemaps
      (fun w => if w = "A" then (([] : List String), ["B"])
        else if w = "B" then (([] : List String), ["A"])
        else ([], [])) 5 ["A"] [] [] = some res ∧ res.1.Nodup) ∧
    processSitemaps
      (fun w => if w = "A" then (([] : List String), ["B"])
        else if w = "B" then (([] : List String), ["A"])
        else ([], [])) 5 ["A"] [] [] = some (["A", "B"], []) :=
  ⟨by decide,
   C7_sitemap_expansion_terminates _ {"A", "B"} ["A"] 5 (by decide)
     (by decide) (by decide),
   by rfl⟩

/-! Helpers for C8. -/

theorem foldBlocks_malformed (url ts : String) (st : ExtractState) :
    ∀ scripts : List (Option Json), (∀ b ∈ scripts, b = none) →
      foldBlocks url ts st scripts = some st := by
  intro scripts
  induction scripts with
  | nil => intro _; rfl
  | cons b rest ih =>
      intro hmal
      have hb : b = none := hmal b (List.mem_cons_self b rest)
      subst hb
      rw [foldBlocks]
      exact ih (fun x hx => hmal x (List.mem_cons_of_mem none hx))

theorem synthesize_schema_shape (soup : Soup) (url ts : String) (r : Json)
    (h : synthesize_schema soup url ts = some r) :
    ∃ extras, r = Json.obj (synthCore soup (synthTitle soup)
      (synthDesc soup) url ts ++ extras) := by
  unfold synthesize_schema at h
  split at h
  · exact absurd h (by simp)
  · split at h
    · exact absurd h (by simp)
    · exact ⟨_, (Option.some.injEq _ _ ▸ h).symm⟩

/-!
C8.  Malformed JSON-LD blocks raise json.JSONDecodeError, which the
per-block try/except silently swallows, and an empty schema_data then
triggers synthesize_schema, whose record always carries at-context,
the mainEntityOfPage back-reference, and the published_time-driven
at-type.  But synthesize_schema itself is not exception-safe: a title
tag with no string makes soup.title.string.strip() raise
AttributeError, and a non-numeric og:image width or height makes
int() raise ValueError; neither is caught (the except clause only
catches JSONDecodeError), so such a page yields no record at all —
refuting "for every HTML page".
-/

/-- C8 (amended): for every page whose JSON-LD script blocks are all
malformed and on which synthesis does not raise (the title tag, when
present, has a string, and og:image dimensions, when present, parse as
integers — formally: synthesize_schema returns a record), extraction
ignores every malformed block and emits exactly that one synthesized
record, which always carries at-context https://schema.org, a
mainEntityOfPage back-reference to the page URL, and at-type
BlogPosting when an article:published_time meta tag exists, else
WebPage. Pages where synthesis raises yield no record (see the
counterexample). -/
theorem C8_malformed_blocks_synthesize (page : Page) (url ts : String)
    (seen : List Json) (counts : List (Json × Nat)) (r : Json)
    (hmal : ∀ b ∈ page.scripts, b = none)
    (hsynth : synthesize_schema page.soup url ts = some r) :
    extract_schema_org page url ts seen counts =
      some { records := [r], seen := seen, counts := counts } ∧
    r.getField "@context" = some (Json.str "https://schema.org") ∧
    r.getField "mainEntityOfPage" =
      some (Json.obj [("@type", Json.str "WebPage"),
                      ("@id", Json.str url)]) ∧
    r.getField "@type" = some (Json.str
      (if page.soup.articlePublishedTime.isSome then "BlogPosting"
       else "WebPage")) := by
  have hfb : foldBlocks url ts ⟨[], seen, counts⟩ page.scripts =
      some ⟨[], seen, counts⟩ :=
    foldBlocks_malformed url ts _ page.scripts hmal
  obtain ⟨extras, hr⟩ := synthesize_schema_shape _ _ _ _ hsynth
  have htr : r.truthy = true := by rw [hr]; rfl
  refine ⟨?_, ?_, ?_, ?_⟩
  · simp only [extract_schema_org, hfb, hsynth, htr, List.isEmpty_nil,
      if_true]
  · rw [hr]
    exact lookup_append_of_some _ rfl
  · rw [hr]
    exact lookup_append_of_some _ rfl
  · rw [hr]
    exact lookup_append_of_some _ rfl

/-- C8 witness: a page with two malformed JSON-LD blocks and an
article:published_time meta tag yields exactly the one synthesized
BlogPosting record. -/
theorem C8_malformed_blocks_synthesize_witness :
    (∀ b ∈ ([none, none] : List (Option Json)), b = none) ∧
    synthesize_schema
      ⟨none, none, none, none, none, none, none, some (some "2024-01-01"),
       none, none, none, none, none⟩ "http://s.x/p" "t0" =
      some (Json.obj
        [("url", Json.str "http://s.x/p"), ("timestamp", Json.str "t0"),
         ("@context", Json.str "https://schema.org"),
         ("@type", Json.str "BlogPosting"),
         ("mainEntityOfPage", Json.obj [("@type", Json.str "WebPage"),
                                        ("@id", Json.str "http://s.x/p")]),
         ("headline", Json.null), ("description", Json.null),
         ("datePublished", Json.str "2024-01-01")]) ∧
    extract_schema_org
      ⟨[none, none],
       ⟨none, none, none, none, none, none, none, some (some "2024-01-01"),
        none, none, none, none, none⟩⟩ "http://s.x/p" "t0" [] [] =
      some ⟨[Json.obj
        [("url", Json.str "http://s.x/p"), ("timestamp", Json.str "t0"),
         ("@context", Json.str "https://schema.org"),
         ("@type", Json.str "BlogPosting"),
         ("mainEntityOfPage", Json.obj [("@type", Json.str "WebPage"),
                                        ("@id", Json.str "http://s.x/p")]),
         ("headline", Json.null), ("description", Json.null),
         ("datePublished", Json.str "2024-01-01")]], [], []⟩ :=
  ⟨by decide, by rfl,
   (C8_malformed_blocks_synthesize
     ⟨[none, none],
      ⟨none, none, none, none, none, none, none, some (some "2024-01-01"),
       none, none, none, none, none⟩⟩ "http://s.x/p" "t0" [] [] _
     (by decide) (by rfl)).1⟩

/-- C8 counterexample: two pages whose only JSON-LD blocks are
malformed yield no synthesized record at all — extraction raises an
uncaught exception instead of emitting exactly one record: a title tag
with no string (AttributeError from None.strip()), and an og:image
whose width content "800px" is not an int (ValueError). -/
theorem C8_synthesis_can_raise :
    extract_schema_org
      ⟨[none], ⟨some none, none, none, none, none, none, none, none, none,
        none, none, none, none⟩⟩ "http://s.x/p" "t0" [] [] = none ∧
    extract_schema_org
      ⟨[none], ⟨none, none, none, none, some (some "http://s.x/i.png"),
        some (some "800px"), none, none, none, none, none, none, none⟩⟩
      "http://s.x/p" "t0" [] [] = none :=
  ⟨by rfl, by rfl⟩

/-! Helpers for C1: the dedup invariants of the array and graph loops. -/

theorem arrayNewObjects_fresh (items : List Json) :
    ∀ seen : List Json,
      (∀ k ∈ (arrayNewObjects seen items).1.filterMap keyOf, k ∉ seen) ∧
      ((arrayNewObjects seen items).1.filterMap keyOf).Nodup := by
  induction items with
  | nil =>
      intro seen
      constructor
      · intro k hkm
        simp [arrayNewObjects] at hkm
      · simp [arrayNewObjects]
  | cons item rest ih =>
      intro seen
      cases hk : extract_json_key item with
      | none =>
          have hko : keyOf item = none := by simp only [keyOf, hk]
          have hred : (arrayNewObjects seen (item :: rest)).1 =
              item :: (arrayNewObjects seen rest).1 := by
            simp only [arrayNewObjects, hk]
          rw [hred, List.filterMap_cons, hko]
          exact ih seen
      | some k =>
          by_cases ht : k.truthy = true
          · by_cases hmem : k ∈ seen
            · have hred : (arrayNewObjects seen (item :: rest)).1 =
                  (arrayNewObjects seen rest).1 := by
                simp only [arrayNewObjects, hk, ht, if_true, if_pos hmem]
              rw [hred]
              exact ih seen
            · have hred : (arrayNewObjects seen (item :: rest)).1 =
                  item :: (arrayNewObjects (k :: seen) rest).1 := by
                simp only [arrayNewObjects, hk, ht, if_true, if_neg hmem]
              have hko : keyOf item = some k := by
                simp only [keyOf, hk, ht, if_true]
              rw [hred, List.filterMap_cons, hko]
              obtain ⟨ihf, ihn⟩ := ih (k :: seen)
              constructor
              · intro k2 hk2
                rcases List.mem_cons.mp hk2 with h | h
                · subst h; exact hmem
                · intro hcon
                  exact ihf k2 h (List.mem_cons_of_mem k hcon)
              · refine List.nodup_cons.mpr ⟨?_, ihn⟩
                intro hcon
                exact ihf k hcon (List.mem_cons_self k seen)
          · have hred : (arrayNewObjects seen (item :: rest)).1 =
                item :: (arrayNewObjects seen rest).1 := by
              simp only [arrayNewObjects, hk, if_neg ht]
            have hko : keyOf item = none := by
              simp only [keyOf, hk, if_neg ht]
            rw [hred, List.filterMap_cons, hko]
            exact ih seen

theorem graphNewItems_fresh (gitems : List Json) :
    ∀ (seen seen2 : List Json) (emitted : List (List (String × Json))),
      graphNewItems seen gitems = some (emitted, seen2) →
      (∀ k ∈ emitted.filterMap (fun kvs => keyOf (Json.obj kvs)), k ∉ seen) ∧
      (emitted.filterMap (fun kvs => keyOf (Json.obj kvs))).Nodup := by
  induction gitems with
  | nil =>
      intro seen seen2 emitted h
      rw [graphNewItems] at h
      simp only [Option.some.injEq, Prod.mk.injEq] at h
      obtain ⟨h1, -⟩ := h
      subst h1
      constructor
      · intro k hkm; simp at hkm
      · simp
  | cons item rest ih =>
      intro seen seen2 emitted h
      cases item with
      | obj kvs =>
          rw [graphNewItems] at h
          cases hk : extract_json_key (Json.obj kvs) with
          | none =>
              rw [hk] at h
              dsimp only at h
              cases hrec : graphNewItems seen rest with
              | none => rw [hrec] at h; simp at h
              | some r =>
                  rw [hrec] at h
                  simp only [Option.some.injEq, Prod.mk.injEq] at h
                  obtain ⟨h1, -⟩ := h
                  subst h1
                  have hko : keyOf (Json.obj kvs) = none := by
                    simp only [keyOf, hk]
                  rw [List.filterMap_cons, hko]
                  exact ih seen r.2 r.1 (by rw [hrec])
          | some k =>
              rw [hk] at h
              dsimp only at h
              by_cases ht : k.truthy = true
              · by_cases hmem : k ∈ seen
                · rw [if_pos ht, if_pos hmem] at h
                  exact ih seen seen2 emitted h
                · rw [if_pos ht, if_neg hmem] at h
                  cases hrec : graphNewItems (k :: seen) rest with
                  | none => rw [hrec] at h; simp at h
                  | some r =>
                      rw [hrec] at h
                      simp only [Option.some.injEq, Prod.mk.injEq] at h
                      obtain ⟨h1, -⟩ := h
                      subst h1
                      have hko : keyOf (Json.obj kvs) = some k := by
                        simp only [keyOf, hk, ht, if_true]
                      rw [List.filterMap_cons, hko]
                      obtain ⟨ihf, ihn⟩ := ih (k :: seen) r.2 r.1 (by rw [hrec])
                      constructor
                      · intro k2 hk2
                        rcases List.mem_cons.mp hk2 with h2 | h2
                        · subst h2; exact hmem
                        · intro hcon
                          exact ihf k2 h2 (List.mem_cons_of_mem k hcon)
                      · refine List.nodup_cons.mpr ⟨?_, ihn⟩
                        intro hcon
                        exact ihf k hcon (List.mem_cons_self k seen)
              · rw [if_neg ht] at h
                cases hrec : graphNewItems seen rest with
                | none => rw [hrec] at h; simp at h
                | some r =>
                    rw [hrec] at h
                    simp only [Option.some.injEq, Prod.mk.injEq] at h
                    obtain ⟨h1, -⟩ := h
                    subst h1
                    have hko : keyOf (Json.obj kvs) = none := by
                      simp only [keyOf, hk, if_neg ht]
                    rw [List.filterMap_cons, hko]
                    exact ih seen r.2 r.1 (by rw [hrec])
      | null =>
          rw [graphNewItems] at h
          · exact absurd h (by simp)
          · exact fun a hh => Json.noConfusion hh
      | bool b =>
          rw [graphNewItems] at h
          · exact absurd h (by simp)
          · exact fun a hh => Json.noConfusion hh
      | num n =>
          rw [graphNewItems] at h
          · exact absurd h (by simp)
          · exact fun a hh => Json.noConfusion hh
      | str s =>
          rw [graphNewItems] at h
          · exact absurd h (by simp)
          · exact fun a hh => Json.noConfusion hh
      | arr xs =>
          rw [graphNewItems] at h
          · exact absurd h (by simp)
          · exact fun a hh => Json.noConfusion hh

/-!
C1.  The dedup-by-identifier claim holds for the array and at-graph
branches of extract_schema_org: an element whose identifier is truthy
and already in the seen-keys set is skipped, and the seen set is
extended as keys are emitted, so no two emitted keyed elements share an
identifier.  The plain-object branch, however, only consults the seen
set to decide whether to persist the key — the record
(schema/url/timestamp) is appended unconditionally, so a plain
JSON-LD object whose at-id is already seen still produces a new record
and two records for the same site can share an identifier.
-/

/-- C1 (amended): dedup by JSON-LD identifier holds for array elements
and at-graph entries — in one pass over a script block, no emitted
element's truthy identifier is already in the site's seen-keys set and
no two emitted keyed elements share an identifier — but a plain
single-object script block is always appended as a schema/url/timestamp
record regardless of whether its identifier is already seen (only the
seen-keys set update is conditional), so records sharing an identifier
can arise from plain-object JSON-LD (see the counterexample). -/
theorem C1_dedup_array_graph (url ts : String) (seen : List Json)
    (items gitems : List Json) (emitted : List (List (String × Json)))
    (seen2 : List Json)
    (hg : graphNewItems seen gitems = some (emitted, seen2)) :
    (∀ k ∈ (arrayNewObjects seen items).1.filterMap keyOf, k ∉ seen) ∧
    ((arrayNewObjects seen items).1.filterMap keyOf).Nodup ∧
    (∀ k ∈ emitted.filterMap (fun kvs => keyOf (Json.obj kvs)), k ∉ seen) ∧
    (emitted.filterMap (fun kvs => keyOf (Json.obj kvs))).Nodup ∧
    (∀ (st : ExtractState) (kvs : List (String × Json)),
      kvs.lookup "@graph" = none →
      ∃ st2, processBlock url ts st (Json.obj kvs) = some st2 ∧
        st2.records = st.records ++
          [Json.obj [("schema", Json.obj kvs), ("url", Json.str url),
                     ("timestamp", Json.str ts)]]) := by
  obtain ⟨haf, han⟩ := arrayNewObjects_fresh items seen
  obtain ⟨hgf, hgn⟩ := graphNewItems_fresh gitems seen seen2 emitted hg
  refine ⟨haf, han, hgf, hgn, ?_⟩
  intro st kvs hng
  have heq : processBlock url ts st (Json.obj kvs) = some
      ⟨st.records ++ [Json.obj [("schema", Json.obj kvs),
          ("url", Json.str url), ("timestamp", Json.str ts)]],
       (match extract_json_key (Json.obj kvs) with
        | some k => if k.truthy ∧ k ∉ st.seen then k :: st.seen else st.seen
        | none => st.seen),
       countTypeOf st.counts (Json.obj kvs)⟩ := by
    rw [processBlock, hng]
  exact ⟨_, heq, rfl⟩

/-- C1 witness: the amended theorem applied with seen-keys containing
"a", an array block holding one already-seen element and one fresh
element, and an empty graph block: the emitted keys avoid "a" and are
duplicate-free. -/
theorem C1_dedup_array_graph_witness :
    graphNewItems [Json.str "a"] [] = some ([], [Json.str "a"]) ∧
    (∀ k ∈ (arrayNewObjects [Json.str "a"]
        [Json.obj [("@id", Json.str "a")], Json.obj [("@id", Json.str "b")]]
      ).1.filterMap keyOf, k ∉ [Json.str "a"]) ∧
    ((arrayNewObjects [Json.str "a"]
        [Json.obj [("@id", Json.str "a")], Json.obj [("@id", Json.str "b")]]
      ).1.filterMap keyOf).Nodup ∧
    (arrayNewObjects [Json.str "a"]
        [Json.obj [("@id", Json.str "a")], Json.obj [("@id", Json.str "b")]]
      ).1 = [Json.obj [("@id", Json.str "b")]] :=
  ⟨by rfl,
   (C1_dedup_array_graph "http://s.x/p" "t0" [Json.str "a"]
     [Json.obj [("@id", Json.str "a")], Json.obj [("@id", Json.str "b")]]
     [] [] [Json.str "a"] (by rfl)).1,
   (C1_dedup_array_graph "http://s.x/p" "t0" [Json.str "a"]
     [Json.obj [("@id", Json.str "a")], Json.obj [("@id", Json.str "b")]]
     [] [] [Json.str "a"] (by rfl)).2.1,
   by rfl⟩

/-- C1 counterexample: a page carrying one plain-object JSON-LD block
whose at-id "a" is already in the site's seen-keys set still appends a
record carrying that identifier; and a page with two identical plain
blocks yields two records for the site carrying the same identifier
"a" — refuting both "no new record carrying that identifier is
appended" and "no two JSON records for the same site share the same
JSON-LD identifier". -/
theorem C1_plain_object_duplicate :
    extract_schema_org ⟨[some (Json.obj [("@id", Json.str "a")])], emptySoup⟩
      "http://s.x/p" "t0" [Json.str "a"] [] =
      some ⟨[Json.obj [("schema", Json.obj [("@id", Json.str "a")]),
             ("url", Json.str "http://s.x/p"),
             ("timestamp", Json.str "t0")]],
            [Json.str "a"], []⟩ ∧
    extract_schema_org ⟨[some (Json.obj [("@id", Json.str "a")]),
        some (Json.obj [("@id", Json.str "a")])], emptySoup⟩
      "http://s.x/p" "t0" [] [] =
      some ⟨[Json.obj [("schema", Json.obj [("@id", Json.str "a")]),
             ("url", Json.str "http://s.x/p"),
             ("timestamp", Json.str "t0")],
             Json.obj [("schema", Json.obj [("@id", Json.str "a")]),
             ("url", Json.str "http://s.x/p"),
             ("timestamp", Json.str "t0")]],
            [Json.str "a"], []⟩ :=
  ⟨by rfl, by rfl⟩

end CrawlerModel
